import Mathlib

/-!
Verification development for the table cell/row resizing plugin of
prosemirror-tables (fork with row resizing).

The embedding covers:
* the cell/row attribute model and defensive DOM attribute parsing
  (src/schema.ts: getCellAttrs, getRowAttrs),
* the resize session state machine (src/resizing.ts: ResizeState.apply),
* drag size clamping (draggedWidth, draggedHeight),
* edge-to-handle resolution (edgeCell),
* drag-start size measurement (currentColWidth, currentRowCellHeight),
* the commit path (updateColumnWidth, updateRowHeight) together with the
  table map geometry it walks.

Positions are document offsets relative to the table content start
(the source's `$cell.pos - start`); this is faithful because the commit code
only ever uses positions relative to `start`, and the constant `start` cancels.
Pixel sizes are rationals (JavaScript numbers restricted to the exact
arithmetic the code performs).

`tablemap.ts` is part of the repository but is not among the provided source
files; `TableMap` below is therefore modelled from the spec (see its doc
comment), and every claim that walks the map records this.
-/

set_option maxHeartbeats 1000000

namespace PmTables

/-- Cell node attributes (src/util.ts `CellAttrs`, schema defaults in
src/schema.ts: colspan 1, rowspan 1, colwidth null, rowheight null).
Size hints are lists of rationals, absent hints are `none`. -/
structure CellAttrs where
  colspan : Nat
  rowspan : Nat
  colwidth : Option (List ℚ)
  rowheight : Option (List ℚ)
deriving DecidableEq

/-- Row node attributes (src/util.ts `RowAttrs`): a single optional
rowheight hint array. -/
structure RowAttrs where
  rowheight : Option (List ℚ)
deriving DecidableEq

/-- A cell node: its attributes plus the size of its content, which fixes
the ProseMirror position arithmetic (a cell node occupies
`contentSize + 2` positions). -/
structure Cell where
  attrs : CellAttrs
  contentSize : Nat
deriving DecidableEq

/-- A row node: its attributes and its cells. -/
structure Row where
  attrs : RowAttrs
  cells : List Cell
deriving DecidableEq

/-- A table node: a sequence of rows. -/
structure Table where
  rows : List Row
deriving DecidableEq

/-- Number of positions occupied by a cell node (open token + content +
close token). -/
def cellSize (c : Cell) : Nat := c.contentSize + 2

/-- Number of positions occupied by a row node. -/
def rowSize (r : Row) : Nat := (r.cells.map cellSize).sum + 2

/-- A cell of the table together with its row index and its document offset
relative to the table content start. -/
structure CellEntry where
  row : Nat
  offset : Nat
  attrs : CellAttrs
deriving DecidableEq

/-- Offsets of the cells of one row, starting at `off` (the offset just
inside the row node). -/
def rowEntriesFrom : Nat → List Cell → List (Nat × CellAttrs)
  | _, [] => []
  | off, c :: cs => (off, c.attrs) :: rowEntriesFrom (off + cellSize c) cs

/-- All cell entries of a list of rows, `ri` the index and `off` the offset
of the first row node. -/
def cellEntriesFrom : Nat → Nat → List Row → List CellEntry
  | _, _, [] => []
  | ri, off, r :: rs =>
      ((rowEntriesFrom (off + 1) r.cells).map (fun e => ⟨ri, e.1, e.2⟩)) ++
        cellEntriesFrom (ri + 1) (off + rowSize r) rs

/-- All cell entries of a table (row index, offset, attributes). -/
def Table.cellEntries (t : Table) : List CellEntry := cellEntriesFrom 0 0 t.rows

/-- The source call `table.nodeAt(pos)` for a position holding a cell node: the attributes
of the cell whose offset is `pos`, `none` when no cell starts there
(the source would crash on the `!` assertion in that case). -/
def Table.nodeAt (t : Table) (pos : Nat) : Option CellAttrs :=
  (t.cellEntries.find? (fun e => e.offset == pos)).map (·.attrs)

/-- The row nodes of a table with the offset of each row node. -/
def rowNodesFrom : Nat → List Row → List (Nat × Row)
  | _, [] => []
  | off, r :: rs => (off, r) :: rowNodesFrom (off + rowSize r) rs

def Table.rowNodes (t : Table) : List (Nat × Row) := rowNodesFrom 0 t.rows

/-- Offset and extent of every row node. -/
def Table.rowSpans (t : Table) : List (Nat × Nat) :=
  t.rowNodes.map (fun e => (e.1, rowSize e.2))

/-- The source call `$cell.before()`: the offset of the row node enclosing the position
`cellPos` (a position strictly inside the row node). -/
def Table.rowPosOf (t : Table) (cellPos : Nat) : Option Nat :=
  (t.rowSpans.find? (fun e => decide (e.1 < cellPos ∧ cellPos < e.1 + e.2))).map (·.1)

/-- Attributes of the row node starting at offset `pos`. -/
def Table.rowAttrsAt (t : Table) (pos : Nat) : Option RowAttrs :=
  (t.rowNodes.find? (fun e => e.1 == pos)).map (·.2.attrs)

/-! ## The table map

`TableMap` lives in `tablemap.ts`, which is not among the provided sources.
It is modelled from the spec. -/

/-- The shape data of a cell that the table map construction consumes:
row index, document offset, and spans. -/
structure CellShape where
  row : Nat
  offset : Nat
  colspan : Nat
  rowspan : Nat
deriving DecidableEq

def CellEntry.shape (e : CellEntry) : CellShape :=
  ⟨e.row, e.offset, e.attrs.colspan, e.attrs.rowspan⟩

def tableShapes (t : Table) : List CellShape := t.cellEntries.map CellEntry.shape

/-- Modelled from the spec: the grid map is a flat sequence of length
`width * height` holding for each grid slot the offset of the owning cell.
All cell offsets are at least 1, so 0 serves as the free-slot sentinel
during construction. -/
structure TableMap where
  width : Nat
  height : Nat
  map : List Nat
deriving DecidableEq

/-- Modelled from the spec: first free grid column of `row` in the map
under construction (`width` if the row is full). -/
def freeCol (m : List Nat) (w row : Nat) : Nat :=
  ((List.range w).find? (fun c => m.getD (row * w + c) 0 == 0)).getD w

/-- Modelled from the spec: write offset `pos` into the `rs × cs` rectangle
of grid slots whose top-left corner is `(row, col)`. -/
def fillRect (w row col rs cs pos : Nat) (m : List Nat) : List Nat :=
  (List.range rs).foldl
    (fun m i => (List.range cs).foldl
      (fun m j => m.set ((row + i) * w + (col + j)) pos) m) m

/-- Modelled from the spec (§4.1 Grid Map): walk each row once, walk each
cell once; a cell at the first free grid column of its row writes its offset
into the next `colspan` grid columns of rows `[row, row + rowspan)`. -/
def buildMap (w h : Nat) (shapes : List CellShape) : List Nat :=
  shapes.foldl
    (fun m s => fillRect w s.row (freeCol m w s.row) s.rowspan s.colspan s.offset m)
    (List.replicate (w * h) 0)

/-- Modelled from the spec: the grid width of a well-formed table is the
total colspan of its first row. -/
def shapesWidth (shapes : List CellShape) : Nat :=
  ((shapes.filter (fun s => s.row == 0)).map (·.colspan)).sum

/-- Modelled from the spec: `TableMap.get(table)` builds the grid map from
the table structure (spans and offsets only). -/
def TableMap.get (t : Table) : TableMap :=
  let w := shapesWidth (tableShapes t)
  ⟨w, t.rows.length, buildMap w t.rows.length (tableShapes t)⟩

/-- Modelled from the spec: `colCount` scans the flat map for the first slot
equal to `pos` and returns its column. -/
def TableMap.colCount (tm : TableMap) (pos : Nat) : Nat :=
  (tm.map.findIdx (fun x => x == pos)) % tm.width

/-- Modelled from the spec: `rowCount` scans the flat map for the first slot
equal to `pos` and returns its row. -/
def TableMap.rowCount (tm : TableMap) (pos : Nat) : Nat :=
  (tm.map.findIdx (fun x => x == pos)) / tm.width

/-! ## Resize session state (src/resizing.ts, ResizeState) -/

inductive Direction where
  | horiz
  | vert
deriving DecidableEq

/-- The `Dragging` record: drag-start pointer coordinate and drag-start size
(`DraggingX` or `DraggingY` in the source). -/
inductive Dragging where
  | x (startX : ℚ) (startWidth : ℚ)
  | y (startY : ℚ) (startHeight : ℚ)
deriving DecidableEq

/-- The session state `ResizeState(activeHandle, dragging, direction)` with `false` rendered
as `none` and the `-1` sentinel kept as an integer. -/
structure ResizeState where
  activeHandle : Int
  dragging : Option Dragging
  direction : Option Direction
deriving DecidableEq

/-- The plugin metadata carried on a transaction: `setHandle` or
`setDragging` actions. -/
inductive ResizeAction where
  | setHandle (value : Int) (direction : Option Direction)
  | setDragging (value : Option Dragging)

/-- The parts of a ProseMirror transaction that `ResizeState.apply` reads:
the plugin metadata, whether the document changed, the position mapping
(the source calls `tr.mapping.map(pos, -1)`), and whether a mapped position
still points at a cell (`pointsAtCell(tr.doc.resolve(p))`). -/
structure Transaction where
  meta : Option ResizeAction
  docChanged : Bool
  mapPos : Int → Int
  pointsAtCell : Int → Bool

/-- src/resizing.ts lines 131-148. -/
def ResizeState.apply (s : ResizeState) (tr : Transaction) : ResizeState :=
  match tr.meta with
  | some (.setHandle v d) => ⟨v, none, if v > -1 then d else none⟩
  | some (.setDragging dg) => ⟨s.activeHandle, dg, s.direction⟩
  | none =>
    if s.activeHandle > -1 ∧ tr.docChanged then
      let mapped := tr.mapPos s.activeHandle
      let handle := if tr.pointsAtCell mapped then mapped else -1
      ⟨handle, s.dragging, s.direction⟩
    else s

/-! ## Drag size clamping (src/resizing.ts, draggedWidth / draggedHeight) -/

def draggedWidth (startX startWidth clientX cellMinWidth : ℚ) : ℚ :=
  let offset := clientX - startX
  max cellMinWidth (startWidth + offset)

def draggedHeight (startY startHeight clientY cellMinHeight : ℚ) : ℚ :=
  let offset := clientY - startY
  max cellMinHeight (startHeight + offset)

/-! ## Edge-to-handle resolution (src/resizing.ts, edgeCell)

`edgeCell` first shifts the pointer by `±handleWidth` and resolves the
shifted point to a cell through `view.posAtCoords` and `cellAround`
(external collaborators); the function below embeds everything after that
resolution: `cellPos` is the absolute position of the resolved cell
(`$cell.pos`) and `start` the table content start. -/

inductive Side where
  | top
  | bottom
  | left
  | right
deriving DecidableEq

def edgeCellFromResolved (tm : TableMap) (start cellPos : Nat) (side : Side) : Int :=
  match side with
  | .right => cellPos
  | .bottom => cellPos
  | .left =>
    let index := tm.map.findIdx (fun x => x == cellPos - start)
    if index % tm.width = 0 then -1
    else ((start + tm.map.getD (index - 1) 0 : Nat) : Int)
  | .top =>
    let index := tm.map.findIdx (fun x => x == cellPos - start)
    if index / tm.width = 0 then -1
    else ((start + tm.map.getD (index - tm.width) 0 : Nat) : Int)

/-! ## Defensive attribute parsing (src/schema.ts) -/

/-- JavaScript `attr.split(',')` on a character list. -/
def splitComma : List Char → List Char → List (List Char)
  | [], acc => [acc.reverse]
  | c :: cs, acc =>
    if c = ',' then acc.reverse :: splitComma cs [] else splitComma cs (c :: acc)

/-- The regular expression test of src/schema.ts: the attribute matches
one or more digit groups separated by single commas exactly when every
comma-separated group is nonempty and all digits. -/
def sizeListFormatOk (s : List Char) : Bool :=
  (splitComma s []).all (fun g => decide (g ≠ []) && g.all Char.isDigit)

/-- JavaScript `Number` on an all-digit group. -/
def digitsVal (g : List Char) : Nat :=
  g.foldl (fun n c => 10 * n + (c.toNat - 48)) 0

/-- The shared parse step for `data-colwidth` / `data-rowheight`:
`attr && /^\d+(,\d+)*$/.test(attr) ? attr.split(',').map(Number) : null`.
The attribute value is modelled as its character list. -/
def parseSizes (attr : Option (List Char)) : Option (List Nat) :=
  match attr with
  | none => none
  | some s => if sizeListFormatOk s then some ((splitComma s []).map digitsVal) else none

/-- The DOM attributes of a `td`/`th` element that `getCellAttrs` reads.
`colspan`/`rowspan` are given as the numbers the source obtains from
`Number(dom.getAttribute(..) || 1)`. -/
structure DomCell where
  colwidthAttr : Option (List Char)
  rowheightAttr : Option (List Char)
  colspan : Nat
  rowspan : Nat

/-- The size-hint attributes `getCellAttrs` produces (src/schema.ts lines
37-68; the extra schema attributes are orthogonal and omitted). -/
structure ParsedCellAttrs where
  colspan : Nat
  rowspan : Nat
  colwidth : Option (List Nat)
  rowheight : Option (List Nat)
deriving DecidableEq

def getCellAttrs (dom : DomCell) : ParsedCellAttrs :=
  let widths := parseSizes dom.colwidthAttr
  let heights := parseSizes dom.rowheightAttr
  { colspan := dom.colspan
    rowspan := dom.rowspan
    colwidth :=
      match widths with
      | some ws => if ws.length = dom.colspan then some ws else none
      | none => none
    rowheight :=
      match heights with
      | some hs => if hs.length = dom.rowspan then some hs else none
      | none => none }

/-- The DOM attributes of a `tr` element that `getRowAttrs` reads. -/
structure DomRow where
  rowheightAttr : Option (List Char)

/-- The result of `getRowAttrs` (src/schema.ts lines 13-35): the row node
has implicit `rowspan = 1`. -/
structure ParsedRowAttrs where
  rowheight : Option (List Nat)
deriving DecidableEq

def getRowAttrs (dom : DomRow) : ParsedRowAttrs :=
  let heights := parseSizes dom.rowheightAttr
  { rowheight :=
      match heights with
      | some hs => if hs.length = 1 then some hs else none
      | none => none }

/-! ## Drag-start size measurement (src/resizing.ts, currentColWidth /
currentRowCellHeight)

The DOM box measurement (`node.offsetWidth` / `node.offsetHeight`) is an
external collaborator and enters as the `domWidth` / `domHeight` argument. -/

/-- The truthiness test `colwidth && colwidth[colwidth.length - 1]`. -/
def hintLast (colwidth : Option (List ℚ)) : Option ℚ :=
  match colwidth with
  | none => none
  | some cw =>
    match cw[cw.length - 1]? with
    | some v => if v = 0 then none else some v
    | none => none

/-- The truthiness test `rowheight && rowheight[rowspan - 1]`. -/
def hintAtRowspan (rowspan : Nat) (rowheight : Option (List ℚ)) : Option ℚ :=
  match rowheight with
  | none => none
  | some rh =>
    match rh[rowspan - 1]? with
    | some v => if v = 0 then none else some v
    | none => none

/-- The subtraction loop shared by both measurement functions: subtract
every truthy stored hint among the first `n` slots from the measured size
and from the part count. -/
def measureStep (hints : Option (List ℚ)) (dp : ℚ × Nat) (i : Nat) : ℚ × Nat :=
  match hints with
  | some l =>
    match l[i]? with
    | some v => if v ≠ 0 then (dp.1 - v, dp.2 - 1) else dp
    | none => dp
  | none => dp

/-- src/resizing.ts lines 297-315. -/
def currentColWidth (domWidth : ℚ) (colspan : Nat) (colwidth : Option (List ℚ)) : ℚ :=
  match hintLast colwidth with
  | some v => v
  | none =>
    let p := (List.range colspan).foldl (measureStep colwidth) (domWidth, colspan)
    p.1 / (p.2 : ℚ)

/-- src/resizing.ts lines 317-335. -/
def currentRowCellHeight (domHeight : ℚ) (rowspan : Nat) (rowheight : Option (List ℚ)) : ℚ :=
  match hintAtRowspan rowspan rowheight with
  | some v => v
  | none =>
    let p := (List.range rowspan).foldl (measureStep rowheight) (domHeight, rowspan)
    p.1 / (p.2 : ℚ)

/-! ## The commit path (src/resizing.ts, updateColumnWidth / updateRowHeight)

A committed transaction is the list of `setNodeMarkup` steps it carries,
each one a position (relative to the table content start) together with the
new markup of the node at that position. The attributes written are always
computed from the original table, as in the source. -/

/-- One `tr.setNodeMarkup` step. -/
inductive Markup where
  | cell (attrs : CellAttrs)
  | row (attrs : RowAttrs)
deriving DecidableEq

abbrev Update := Nat × Markup

/-- src/resizing.ts lines 541-543. -/
def zeroes (n : Nat) : List ℚ := List.replicate n 0

/-- JavaScript array element assignment `l[i] = v`: in-range assignment
replaces, out-of-range assignment grows the array to length `i + 1`
(the commit code only ever assigns in range once the map is well formed). -/
def jsSet (l : List ℚ) (i : Nat) (v : ℚ) : List ℚ :=
  if i < l.length then l.set i v
  else l ++ List.replicate (i - l.length) 0 ++ [v]

/-- The local index into the span-length hint array used by the column
commit: `attrs.colspan == 1 ? 0 : col - map.colCount(pos)`. -/
def colTouchIndex (tm : TableMap) (col pos : Nat) (attrs : CellAttrs) : Nat :=
  if attrs.colspan = 1 then 0 else col - tm.colCount pos

/-- The local index used by the row commit:
`attrs.rowspan == 1 ? 0 : row - map.rowCount(pos)`. -/
def rowTouchIndex (tm : TableMap) (row pos : Nat) (attrs : CellAttrs) : Nat :=
  if attrs.rowspan = 1 then 0 else row - tm.rowCount pos

/-- The new cell attributes written by a column commit at position `pos`. -/
def colNewAttrs (tm : TableMap) (col : Nat) (width : ℚ) (pos : Nat)
    (attrs : CellAttrs) : CellAttrs :=
  let base := attrs.colwidth.getD (zeroes attrs.colspan)
  { attrs with colwidth := some (jsSet base (colTouchIndex tm col pos attrs) width) }

/-- The new cell attributes written by a row commit at position `pos`. -/
def rowNewAttrs (tm : TableMap) (row : Nat) (height : ℚ) (pos : Nat)
    (attrs : CellAttrs) : CellAttrs :=
  let base := attrs.rowheight.getD (zeroes attrs.rowspan)
  { attrs with rowheight := some (jsSet base (rowTouchIndex tm row pos attrs) height) }

/-- One iteration of the `updateColumnWidth` loop (src/resizing.ts lines
429-443), for grid row `row` of the target column `col`. -/
def colStep (t : Table) (tm : TableMap) (col : Nat) (width : ℚ)
    (tr : List Update) (row : Nat) : Option (List Update) :=
  let mapIndex := row * tm.width + col
  if row ≠ 0 ∧ tm.map.getD mapIndex 0 = tm.map.getD (mapIndex - tm.width) 0 then
    some tr
  else
    let pos := tm.map.getD mapIndex 0
    match t.nodeAt pos with
    | none => none
    | some attrs =>
      match attrs.colwidth with
      | some cw =>
        if cw[colTouchIndex tm col pos attrs]? = some width then some tr
        else some (tr ++ [(pos, Markup.cell (colNewAttrs tm col width pos attrs))])
      | none => some (tr ++ [(pos, Markup.cell (colNewAttrs tm col width pos attrs))])

/-- The target column of a column commit:
`map.colCount($cell.pos - start) + $cell.nodeAfter.attrs.colspan - 1`. -/
def targetCol (tm : TableMap) (cellPos : Nat) (cell : CellAttrs) : Nat :=
  tm.colCount cellPos + cell.colspan - 1

/-- The steps accumulated by `updateColumnWidth` (src/resizing.ts lines
417-445) before the `docChanged` dispatch test; `none` when the source
would crash on a failed `!` assertion. -/
def columnUpdates (t : Table) (cellPos : Nat) (width : ℚ) : Option (List Update) :=
  let tm := TableMap.get t
  match t.nodeAt cellPos with
  | none => none
  | some cell =>
    (List.range tm.height).foldlM (colStep t tm (targetCol tm cellPos cell) width) []

/-- The dispatch guard `if (tr.docChanged) view.dispatch(tr)`: the dispatched transaction of a
column commit, `none` when nothing is dispatched. -/
def dispatchedColumnTx (t : Table) (cellPos : Nat) (width : ℚ) : Option (List Update) :=
  match columnUpdates t cellPos width with
  | none => none
  | some tr => if tr = [] then none else some tr

/-- One iteration of the `updateRowHeight` loop (src/resizing.ts lines
458-472), for grid column `col` of the target row `row`. The skip guard is
the source's literal `row && map.map[mapIndex] == map.map[mapIndex - 1]`:
it tests the target row index, not the loop's column index. -/
def rowStep (t : Table) (tm : TableMap) (row : Nat) (height : ℚ)
    (tr : List Update) (col : Nat) : Option (List Update) :=
  let mapIndex := col + row * tm.width
  if row ≠ 0 ∧ tm.map.getD mapIndex 0 = tm.map.getD (mapIndex - 1) 0 then
    some tr
  else
    let pos := tm.map.getD mapIndex 0
    match t.nodeAt pos with
    | none => none
    | some attrs =>
      match attrs.rowheight with
      | some rh =>
        if rh[rowTouchIndex tm row pos attrs]? = some height then some tr
        else some (tr ++ [(pos, Markup.cell (rowNewAttrs tm row height pos attrs))])
      | none => some (tr ++ [(pos, Markup.cell (rowNewAttrs tm row height pos attrs))])

/-- The target row of a row commit:
`map.rowCount($cell.pos - start) + $cell.nodeAfter.attrs.rowspan - 1`. -/
def targetRow (tm : TableMap) (cellPos : Nat) (cell : CellAttrs) : Nat :=
  tm.rowCount cellPos + cell.rowspan - 1

/-- The steps accumulated by `updateRowHeight` (src/resizing.ts lines
447-479): the per-cell loop followed by the unconditional row-node markup.
The source spreads `$row.node().attrs` — the attributes of the node
enclosing the row position, which is the table node, empty in this schema —
so the row node receives exactly `{rowheight: [height]}`. -/
def rowUpdates (t : Table) (cellPos : Nat) (height : ℚ) : Option (List Update) :=
  let tm := TableMap.get t
  match t.nodeAt cellPos with
  | none => none
  | some cell =>
    match (List.range tm.width).foldlM (rowStep t tm (targetRow tm cellPos cell) height) [] with
    | none => none
    | some tr =>
      match t.rowPosOf cellPos with
      | none => none
      | some rowPos => some (tr ++ [(rowPos, Markup.row ⟨some [height]⟩)])

/-- The dispatched transaction of a row commit (`tr.docChanged` is true
exactly when the step list is nonempty). -/
def dispatchedRowTx (t : Table) (cellPos : Nat) (height : ℚ) : Option (List Update) :=
  match rowUpdates t cellPos height with
  | none => none
  | some tr => if tr = [] then none else some tr

/-! ## Applying a committed transaction to the table

`setNodeMarkup` replaces the attributes of the node at a position and
changes nothing else; node sizes, hence all offsets, are unchanged. -/

def setCellsFrom : Nat → Nat → CellAttrs → List Cell → List Cell
  | _, _, _, [] => []
  | off, pos, a, c :: cs =>
      (if off = pos then { c with attrs := a } else c) ::
        setCellsFrom (off + cellSize c) pos a cs

def setRowsCellFrom : Nat → Nat → CellAttrs → List Row → List Row
  | _, _, _, [] => []
  | off, pos, a, r :: rs =>
      { r with cells := setCellsFrom (off + 1) pos a r.cells } ::
        setRowsCellFrom (off + rowSize r) pos a rs

/-- The effect of `setNodeMarkup` at a cell position. -/
def setCellMarkup (t : Table) (pos : Nat) (a : CellAttrs) : Table :=
  ⟨setRowsCellFrom 0 pos a t.rows⟩

def setRowsRowFrom : Nat → Nat → RowAttrs → List Row → List Row
  | _, _, _, [] => []
  | off, pos, a, r :: rs =>
      (if off = pos then { r with attrs := a } else r) ::
        setRowsRowFrom (off + rowSize r) pos a rs

/-- The effect of `setNodeMarkup` at a row position. -/
def setRowMarkup (t : Table) (pos : Nat) (a : RowAttrs) : Table :=
  ⟨setRowsRowFrom 0 pos a t.rows⟩

def applyUpdate (t : Table) (u : Update) : Table :=
  match u.2 with
  | .cell a => setCellMarkup t u.1 a
  | .row a => setRowMarkup t u.1 a

/-- Apply all steps of a committed transaction in order. -/
def applyTx (t : Table) (us : List Update) : Table := us.foldl applyUpdate t

/-! ## Claim-side helper definitions and concrete example tables -/

/-- The hint value the measurement loop subtracts at slot `i` (0 when the
slot has no truthy hint). -/
def hintVal (hints : Option (List ℚ)) (i : Nat) : ℚ :=
  match hints with
  | some l =>
    match l[i]? with
    | some v => if v = 0 then 0 else v
    | none => 0
  | none => 0

/-- Whether slot `i` carries a truthy stored hint. -/
def hintPresent (hints : Option (List ℚ)) (i : Nat) : Bool :=
  match hints with
  | some l =>
    match l[i]? with
    | some v => decide (v ≠ 0)
    | none => false
  | none => false

/-- Sum of the present non-zero hints among the first `n` slots. -/
def hintedSum (n : Nat) (hints : Option (List ℚ)) : ℚ :=
  ((List.range n).map (hintVal hints)).sum

/-- Number of the first `n` slots lacking a truthy hint. -/
def unhintedParts (n : Nat) (hints : Option (List ℚ)) : Nat :=
  ((List.range n).filter (fun i => !hintPresent hints i)).length

/-- A plain 1×1 cell with empty content. -/
def exCell : Cell := ⟨⟨1, 1, none, none⟩, 1⟩

/-- A colspan-2 cell. -/
def exWideCell : Cell := ⟨⟨2, 1, none, none⟩, 1⟩

/-- A rowspan-2 cell. -/
def exTallCell : Cell := ⟨⟨1, 2, none, none⟩, 1⟩

/-- A 1×1 cell whose rowheight hint already stores 30. -/
def exHintedCell : Cell := ⟨⟨1, 1, none, some [30]⟩, 1⟩

/-- One row holding a single colspan-2 cell. -/
def tabWide : Table := ⟨[⟨⟨none⟩, [exWideCell]⟩]⟩

/-- One row whose row node and single cell already store height 30. -/
def tabHinted : Table := ⟨[⟨⟨some [30]⟩, [exHintedCell]⟩]⟩

/-- Two rows: a rowspan-2 cell and a plain cell in row 0, one plain cell in
row 1 (grid 2 wide, 2 high). -/
def tabMix : Table := ⟨[⟨⟨none⟩, [exTallCell, exCell]⟩, ⟨⟨none⟩, [exCell]⟩]⟩

/-- A 2×2 grid of plain single cells. -/
def tab22 : Table := ⟨[⟨⟨none⟩, [exCell, exCell]⟩, ⟨⟨none⟩, [exCell, exCell]⟩]⟩

/-- The step list of the row commit of `tabMix` at the rowspan-2 handle. -/
def tabMixRowCommit : List Update :=
  [(1, Markup.cell ⟨1, 2, none, some [0, 40]⟩),
   (9, Markup.cell ⟨1, 1, none, some [40]⟩),
   (0, Markup.row ⟨some [40]⟩)]

/-- The update preserves the spans of every cell at its position (always
true of the markups the commit path emits; trivially true of row markups). -/
def updOk (t : Table) (u : Update) : Prop :=
  match u.2 with
  | .cell a => ∀ s ∈ tableShapes t, s.offset = u.1 → s.colspan = a.colspan ∧ s.rowspan = a.rowspan
  | .row _ => True

/-- Every update the column-commit loop appends: it sits at the flat-map
slot of some visited grid row of the target column, and rewrites the cell
there with `colNewAttrs`. -/
def colEmittedAt (t : Table) (tm : TableMap) (col : Nat) (w : ℚ) (u : Update) : Prop :=
  ∃ row, row < tm.height ∧ u.1 = tm.map.getD (row * tm.width + col) 0 ∧
    ∃ attrs, t.nodeAt u.1 = some attrs ∧ u.2 = Markup.cell (colNewAttrs tm col w u.1 attrs)

/-- Every update the row-commit loop appends. -/
def rowEmittedAt (t : Table) (tm : TableMap) (row : Nat) (hv : ℚ) (u : Update) : Prop :=
  ∃ col, col < tm.width ∧ u.1 = tm.map.getD (col + row * tm.width) 0 ∧
    ∃ attrs, t.nodeAt u.1 = some attrs ∧ u.2 = Markup.cell (rowNewAttrs tm row hv u.1 attrs)

/-- Decidable well-formedness of the boundary a column commit walks: the
handle resolves to a cell, every visited flat-map slot holds a cell, the
local touch index falls inside that cell's span, and any stored colwidth
array has the span's length (the parse invariant of src/schema.ts). -/
def colCommitOk (t : Table) (cellPos : Nat) : Bool :=
  match t.nodeAt cellPos with
  | none => false
  | some cell =>
    let tm := TableMap.get t
    let col := targetCol tm cellPos cell
    (List.range tm.height).all (fun r =>
      let pos := tm.map.getD (r * tm.width + col) 0
      match t.nodeAt pos with
      | none => false
      | some attrs =>
        decide (colTouchIndex tm col pos attrs < attrs.colspan) &&
        (match attrs.colwidth with
         | some cw => decide (cw.length = attrs.colspan)
         | none => true))

/-- Decidable well-formedness of the boundary a row commit walks. -/
def rowCommitOk (t : Table) (cellPos : Nat) : Bool :=
  match t.nodeAt cellPos with
  | none => false
  | some cell =>
    let tm := TableMap.get t
    let row := targetRow tm cellPos cell
    (List.range tm.width).all (fun c =>
      let pos := tm.map.getD (c + row * tm.width) 0
      match t.nodeAt pos with
      | none => false
      | some attrs =>
        decide (rowTouchIndex tm row pos attrs < attrs.rowspan) &&
        (match attrs.rowheight with
         | some rh => decide (rh.length = attrs.rowspan)
         | none => true))

/-! ## General lemmas -/

theorem jsSet_getElem_self (l : List ℚ) (i : Nat) (v : ℚ) : (jsSet l i v)[i]? = some v := by
  unfold jsSet
  split
  · next h => simp [List.getElem?_set_self, h]
  · next h =>
    rw [List.append_assoc, List.getElem?_append_right]
    · simp [List.length_replicate]
    · omega

theorem jsSet_length_of_lt (l : List ℚ) (i : Nat) (v : ℚ) (h : i < l.length) :
    (jsSet l i v).length = l.length := by
  unfold jsSet
  simp [h]

theorem jsSet_getElem_other (l : List ℚ) (i : Nat) (v : ℚ) (j : Nat)
    (hne : j ≠ i) (h : i < l.length) : (jsSet l i v)[j]? = l[j]? := by
  unfold jsSet
  simp [h, List.getElem?_set_ne (Ne.symm hne)]

theorem zeroes_length (n : Nat) : (zeroes n).length = n := by
  simp [zeroes]

/-- An all-skipping `foldlM` over `Option` returns its accumulator. -/
theorem foldlM_option_skip {α σ : Type} (f : σ → α → Option σ) :
    ∀ (l : List α) (a : σ), (∀ x ∈ l, ∀ s, f s x = some s) → l.foldlM f a = some a := by
  intro l
  induction l with
  | nil => intro a _; rfl
  | cons x xs ih =>
    intro a h
    rw [List.foldlM_cons, h x (by simp)]
    exact ih a (fun y hy s => h y (List.mem_cons_of_mem _ hy) s)

/-- A `foldlM` over `Option` whose every step extends the accumulator by
elements satisfying `P` produces a list extending the start by elements
satisfying `P`, and every input was consumed by a successful step whose
output starts the final list. -/
theorem foldlM_option_facts {α β : Type} (f : List β → α → Option (List β)) (P : β → Prop) :
    ∀ (l : List α),
      (∀ a x r, x ∈ l → f a x = some r → ∃ s, r = a ++ s ∧ ∀ e ∈ s, P e) →
      ∀ (a us : List β), l.foldlM f a = some us →
        (∃ s, us = a ++ s ∧ ∀ e ∈ s, P e) ∧
        (∀ x ∈ l, ∃ b r, f b x = some r ∧ ∃ s2, us = r ++ s2) := by
  intro l
  induction l with
  | nil =>
    intro _ a us h
    have : us = a := by simpa [List.foldlM] using h.symm
    subst this
    exact ⟨⟨[], by simp⟩, by simp⟩
  | cons x xs ih =>
    intro hstep a us h
    rw [List.foldlM_cons] at h
    cases hfa : f a x with
    | none => rw [hfa] at h; simp at h
    | some r =>
      rw [hfa] at h
      simp only [Option.bind_eq_bind, Option.some_bind] at h
      obtain ⟨⟨s, hs, hPs⟩, hall⟩ :=
        ih (fun b y q hy hq => hstep b y q (List.mem_cons_of_mem _ hy) hq) r us h
      obtain ⟨s1, hs1, hPs1⟩ := hstep a x r (by simp) hfa
      subst hs1
      refine ⟨⟨s1 ++ s, by simp [hs], ?_⟩, ?_⟩
      · intro e he
        rcases List.mem_append.1 he with h1 | h2
        exacts [hPs1 e h1, hPs e h2]
      · intro y hy
        rcases List.mem_cons.1 hy with rfl | hym
        · exact ⟨a, a ++ s1, hfa, s, hs⟩
        · exact hall y hym

theorem filter_not_length {α : Type} (p : α → Bool) :
    ∀ (l : List α), (l.filter (fun x => !p x)).length = l.length - (l.filter p).length := by
  intro l
  induction l with
  | nil => rfl
  | cons x xs ih =>
    have hle := List.length_filter_le p xs
    by_cases h : p x
    all_goals simp [List.filter_cons, h, ih]
    all_goals omega

/-- Characterization of the shared measurement loop. -/
theorem measureStep_foldl (hints : Option (List ℚ)) :
    ∀ (l : List Nat) (d : ℚ) (p : Nat),
      l.foldl (measureStep hints) (d, p) =
        (d - (l.map (hintVal hints)).sum, p - (l.filter (hintPresent hints)).length) := by
  intro l
  induction l with
  | nil => intro d p; simp
  | cons i l ih =>
    intro d p
    have hstep : measureStep hints (d, p) i =
        (d - hintVal hints i, if hintPresent hints i then p - 1 else p) := by
      cases hints with
      | none => simp [measureStep, hintVal, hintPresent]
      | some lst =>
        cases hv : lst[i]? with
        | none => simp [measureStep, hintVal, hintPresent, hv]
        | some v =>
          by_cases hz : v = 0
          · simp [measureStep, hintVal, hintPresent, hv, hz]
          · simp [measureStep, hintVal, hintPresent, hv, hz]
    rw [List.foldl_cons, hstep]
    by_cases hp : hintPresent hints i
    · rw [if_pos hp, ih, List.map_cons, List.sum_cons, List.filter_cons, if_pos (by simp [hp])]
      rw [Prod.mk.injEq]
      refine ⟨by ring, ?_⟩
      simp only [List.length_cons]
      omega
    · rw [if_neg hp, ih, List.map_cons, List.sum_cons, List.filter_cons, if_neg (by simp [hp])]
      have hv0 : hintVal hints i = 0 := by
        cases hints with
        | none => simp [hintVal]
        | some lst =>
          cases hv : lst[i]? with
          | none => simp [hintVal, hv]
          | some v =>
            have hz : v = 0 := by
              by_contra hne
              exact hp (by simp [hintPresent, hv, hne])
            simp [hintVal, hv, hz]
      rw [hv0, Prod.mk.injEq]
      exact ⟨by ring, rfl⟩

/-! ## Claims C3, C9: the resize session state machine -/

/-- C3: for every `ResizeState` with an active handle and every
document-changing transaction without plugin metadata, `apply` remaps the
handle through the transaction's position mapping; when the remapped
position still points at a cell the handle becomes that position, and when
it does not the session collapses to the idle `-1` sentinel (no cell is
referenced and nothing is committed: `apply` is a pure state transition). -/
theorem c3_apply_remap_collapse (s : ResizeState) (tr : Transaction)
    (hh : s.activeHandle > -1) (hm : tr.meta = none) (hd : tr.docChanged = true) :
    (tr.pointsAtCell (tr.mapPos s.activeHandle) = true →
      s.apply tr = ⟨tr.mapPos s.activeHandle, s.dragging, s.direction⟩) ∧
    (tr.pointsAtCell (tr.mapPos s.activeHandle) = false →
      s.apply tr = ⟨-1, s.dragging, s.direction⟩) := by
  unfold ResizeState.apply
  rw [hm]
  constructor <;> intro hp <;> simp [hh, hd, hp]

/-- Witness for C3 at a concrete state and transaction. -/
theorem c3_apply_remap_collapse_witness :
    (⟨5, none, some Direction.horiz⟩ : ResizeState).apply
        ⟨none, true, fun p => p + 2, fun _ => false⟩ =
      ⟨-1, none, some Direction.horiz⟩ :=
  (c3_apply_remap_collapse ⟨5, none, some Direction.horiz⟩
    ⟨none, true, fun p => p + 2, fun _ => false⟩ (by decide) rfl rfl).2 rfl

/-- C9: a transaction without plugin metadata leaves a state with no active
handle, or any state when the document is unchanged, exactly as it was. -/
theorem c9_apply_frame (s : ResizeState) (tr : Transaction) (hm : tr.meta = none)
    (h : s.activeHandle = -1 ∨ tr.docChanged = false) : s.apply tr = s := by
  unfold ResizeState.apply
  rw [hm]
  rcases h with h | h
  · rw [if_neg]
    rintro ⟨h1, -⟩
    rw [h] at h1
    exact absurd h1 (by decide)
  · rw [if_neg]
    rintro ⟨-, h2⟩
    rw [h] at h2
    exact absurd h2 (by decide)

/-- Witness for C9 at a concrete idle state and a concrete document-changing
transaction, and at an active state with an unchanged document. -/
theorem c9_apply_frame_witness :
    (⟨-1, none, none⟩ : ResizeState).apply ⟨none, true, fun p => p + 7, fun _ => true⟩ =
        ⟨-1, none, none⟩ ∧
    (⟨3, none, some Direction.vert⟩ : ResizeState).apply
        ⟨none, false, fun p => p + 7, fun _ => true⟩ = ⟨3, none, some Direction.vert⟩ :=
  ⟨c9_apply_frame _ _ rfl (Or.inl rfl), c9_apply_frame _ _ rfl (Or.inr rfl)⟩

/-! ## Claim C4: drag size clamping -/

/-- C4: the previewed and committed size of a drag equals
`max(minSize, startSize + (currentCoord - startCoord))`, for horizontal
drags with `cellMinWidth` and vertical drags with `cellMinHeight`; a delta
that would push the size below the minimum yields exactly the minimum.
(The same `draggedWidth`/`draggedHeight` value feeds both the preview path
`displayColumnWidth`/`displayRowHeight` and the commit path
`updateColumnWidth`/`updateRowHeight`.) -/
theorem c4_drag_clamp (startX startWidth clientX cellMinWidth : ℚ)
    (startY startHeight clientY cellMinHeight : ℚ) :
    draggedWidth startX startWidth clientX cellMinWidth =
        max cellMinWidth (startWidth + (clientX - startX)) ∧
    cellMinWidth ≤ draggedWidth startX startWidth clientX cellMinWidth ∧
    (startWidth + (clientX - startX) ≤ cellMinWidth →
      draggedWidth startX startWidth clientX cellMinWidth = cellMinWidth) ∧
    draggedHeight startY startHeight clientY cellMinHeight =
        max cellMinHeight (startHeight + (clientY - startY)) ∧
    cellMinHeight ≤ draggedHeight startY startHeight clientY cellMinHeight ∧
    (startHeight + (clientY - startY) ≤ cellMinHeight →
      draggedHeight startY startHeight clientY cellMinHeight = cellMinHeight) := by
  unfold draggedWidth draggedHeight
  refine ⟨rfl, le_max_left _ _, fun h => max_eq_left h, rfl, le_max_left _ _,
    fun h => max_eq_left h⟩

/-- Witness for C4: a drag of −40 px on a 30 px column with minimum 25
yields exactly 25. -/
theorem c4_drag_clamp_witness : draggedWidth 100 30 60 25 = 25 :=
  (c4_drag_clamp 100 30 60 25 0 0 0 0).2.2.1 (by norm_num)

/-! ## Claim C5: edge-to-handle resolution -/

/-- C5: a left edge resolves to the grid cell one flat-map slot earlier and
a top edge to the slot one grid width earlier, so the handle returned for a
cell's left edge is exactly the handle the right-edge branch returns for the
left neighbour; at flat-map indices in the first column
(`index % width == 0`) the left edge yields the `-1` sentinel, and at
indices in the first row (`index / width == 0`) the top edge does. -/
theorem c5_edge_cell_neighbor (tm : TableMap) (start cellPos i : Nat)
    (hfind : tm.map.findIdx (fun x => x == cellPos - start) = i) :
    (i % tm.width ≠ 0 →
      edgeCellFromResolved tm start cellPos Side.left =
          ((start + tm.map.getD (i - 1) 0 : Nat) : Int) ∧
      edgeCellFromResolved tm start (start + tm.map.getD (i - 1) 0) Side.right =
          ((start + tm.map.getD (i - 1) 0 : Nat) : Int)) ∧
    (i % tm.width = 0 → edgeCellFromResolved tm start cellPos Side.left = -1) ∧
    (i / tm.width ≠ 0 →
      edgeCellFromResolved tm start cellPos Side.top =
          ((start + tm.map.getD (i - tm.width) 0 : Nat) : Int)) ∧
    (i / tm.width = 0 → edgeCellFromResolved tm start cellPos Side.top = -1) := by
  unfold edgeCellFromResolved
  refine ⟨fun h => ⟨?_, rfl⟩, fun h => ?_, fun h => ?_, fun h => ?_⟩ <;>
    simp [hfind, h]

/-- Witness for C5 on a 2×2 grid of single cells whose flat map is
`[1, 4, 9, 12]` with table content start 20: the left edge of the cell at
grid index 1 resolves to handle 21, exactly the right-edge handle of the
cell at offset 1, and its top edge (first row) yields −1. -/
theorem c5_edge_cell_neighbor_witness :
    edgeCellFromResolved ⟨2, 2, [1, 4, 9, 12]⟩ 20 24 Side.left = 21 ∧
    edgeCellFromResolved ⟨2, 2, [1, 4, 9, 12]⟩ 20 21 Side.right = 21 ∧
    edgeCellFromResolved ⟨2, 2, [1, 4, 9, 12]⟩ 20 24 Side.top = -1 := by
  obtain ⟨h1, -, -, h4⟩ :=
    c5_edge_cell_neighbor ⟨2, 2, [1, 4, 9, 12]⟩ 20 24 1 (by decide)
  obtain ⟨hl, hr⟩ := h1 (by decide)
  exact ⟨hl, hr, h4 (by decide)⟩

/-! ## Claim C7: defensive attribute parsing -/

/-- C7: `getCellAttrs` and `getRowAttrs` are total, and a parsed size-hint
array whose length differs from the node's span (`colspan`/`rowspan` for
cells, 1 for rows) is replaced by the absent default `none` instead of
being kept or raising. -/
theorem c7_defensive_parse (domc : DomCell) (domr : DomRow) :
    ((getCellAttrs domc).colwidth = none ∨
      ∃ ws, (getCellAttrs domc).colwidth = some ws ∧ ws.length = domc.colspan) ∧
    (∀ ws, parseSizes domc.colwidthAttr = some ws → ws.length ≠ domc.colspan →
      (getCellAttrs domc).colwidth = none) ∧
    ((getCellAttrs domc).rowheight = none ∨
      ∃ hs, (getCellAttrs domc).rowheight = some hs ∧ hs.length = domc.rowspan) ∧
    (∀ hs, parseSizes domc.rowheightAttr = some hs → hs.length ≠ domc.rowspan →
      (getCellAttrs domc).rowheight = none) ∧
    ((getRowAttrs domr).rowheight = none ∨
      ∃ hs, (getRowAttrs domr).rowheight = some hs ∧ hs.length = 1) ∧
    (∀ hs, parseSizes domr.rowheightAttr = some hs → hs.length ≠ 1 →
      (getRowAttrs domr).rowheight = none) := by
  unfold getCellAttrs getRowAttrs
  refine ⟨?_, ?_, ?_, ?_, ?_, ?_⟩
  · cases hw : parseSizes domc.colwidthAttr with
    | none => simp [hw]
    | some ws =>
      by_cases hl : ws.length = domc.colspan
      · exact Or.inr ⟨ws, by simp [hw, hl], hl⟩
      · simp [hw, hl]
  · intro ws hw hl
    simp [hw, hl]
  · cases hh : parseSizes domc.rowheightAttr with
    | none => simp [hh]
    | some hs =>
      by_cases hl : hs.length = domc.rowspan
      · exact Or.inr ⟨hs, by simp [hh, hl], hl⟩
      · simp [hh, hl]
  · intro hs hh hl
    simp [hh, hl]
  · cases hh : parseSizes domr.rowheightAttr with
    | none => simp [hh]
    | some hs =>
      by_cases hl : hs.length = 1
      · exact Or.inr ⟨hs, by simp [hh, hl], hl⟩
      · simp [hh, hl]
  · intro hs hh hl
    simp [hh, hl]

/-- Witness for C7: a stored `data-colwidth` of "30,40" on a colspan-3 cell
parses but has the wrong length, so the attribute comes back absent. -/
theorem c7_defensive_parse_witness :
    (getCellAttrs ⟨some ['3', '0', ',', '4', '0'], none, 3, 1⟩).colwidth = none :=
  (c7_defensive_parse ⟨some ['3', '0', ',', '4', '0'], none, 3, 1⟩ ⟨none⟩).2.1
    [30, 40] (by decide) (by decide)

/-! ## Claim C8: drag-start size measurement -/

/-- C8: the effective size captured at drag start is the stored hint of the
cell's last spanned column (resp. row) when present and non-zero; otherwise
it is the measured DOM box size minus the present non-zero hints, divided by
the number of spanned slots lacking a hint. -/
theorem c8_current_size_baseline (domW domH : ℚ) (colspan rowspan : Nat)
    (cw rh : Option (List ℚ)) :
    (∀ l v, cw = some l → l.length = colspan → l[colspan - 1]? = some v → v ≠ 0 →
      currentColWidth domW colspan cw = v) ∧
    (hintLast cw = none →
      currentColWidth domW colspan cw =
        (domW - hintedSum colspan cw) / (unhintedParts colspan cw : ℚ)) ∧
    (∀ l v, rh = some l → l.length = rowspan → l[rowspan - 1]? = some v → v ≠ 0 →
      currentRowCellHeight domH rowspan rh = v) ∧
    (hintAtRowspan rowspan rh = none →
      currentRowCellHeight domH rowspan rh =
        (domH - hintedSum rowspan rh) / (unhintedParts rowspan rh : ℚ)) := by
  refine ⟨?_, ?_, ?_, ?_⟩
  · intro l v hcw hlen hget hv
    subst hcw
    have hlast : hintLast (some l) = some v := by
      simp only [hintLast]
      rw [hlen, hget]
      simp [hv]
    unfold currentColWidth
    rw [hlast]
  · intro hnone
    unfold currentColWidth
    rw [hnone, measureStep_foldl]
    have hparts : colspan - ((List.range colspan).filter (hintPresent cw)).length =
        unhintedParts colspan cw := by
      unfold unhintedParts
      rw [filter_not_length, List.length_range]
    rw [show ((List.range colspan).map (hintVal cw)).sum = hintedSum colspan cw from rfl,
      hparts]
  · intro l v hrh hlen hget hv
    subst hrh
    have hlast : hintAtRowspan rowspan (some l) = some v := by
      simp only [hintAtRowspan]
      rw [hget]
      simp [hv]
    unfold currentRowCellHeight
    rw [hlast]
  · intro hnone
    unfold currentRowCellHeight
    rw [hnone, measureStep_foldl]
    have hparts : rowspan - ((List.range rowspan).filter (hintPresent rh)).length =
        unhintedParts rowspan rh := by
      unfold unhintedParts
      rw [filter_not_length, List.length_range]
    rw [show ((List.range rowspan).map (hintVal rh)).sum = hintedSum rowspan rh from rfl,
      hparts]

/-- Witness for C8: a colspan-3 cell with hints `[40, 0, 0]` and a measured
box of 100 px has no last-column hint, so the baseline is
`(100 - 40) / 2 = 30`; with hints `[40, 0, 50]` the stored 50 is used. -/
theorem c8_current_size_baseline_witness :
    currentColWidth 100 3 (some [40, 0, 0]) = 30 ∧
    currentColWidth 100 3 (some [40, 0, 50]) = 50 := by
  constructor
  · have h := (c8_current_size_baseline 100 0 3 0 (some [40, 0, 0]) none).2.1 (by decide)
    rw [h]
    norm_num [hintedSum, unhintedParts, hintVal, hintPresent, List.range_succ]
  · exact (c8_current_size_baseline 100 0 3 0 (some [40, 0, 50]) none).1
      [40, 0, 50] 50 rfl (by decide) (by decide) (by norm_num)

/-! ## Claim C1: one update per distinct spanning cell along the boundary -/

/-- C1 fails on the code for row resizes: the skip guard of
`updateRowHeight` (src/resizing.ts line 461) is
`if (row && map.map[mapIndex] == map.map[mapIndex - 1])` — it tests the
target row index where the symmetric column code tests the loop variable —
so when the target row is 0 a column-spanning cell is not skipped and
receives one `setNodeMarkup` per spanned grid column. On `tabWide` (one
row, one colspan-2 cell at offset 1) the commit for height 30 emits two
identical updates for the same cell, contradicting the claimed
"exactly one attribute update per distinct cell node". -/
theorem c1_row_resize_duplicate_updates :
    rowUpdates tabWide 1 30 =
      some [(1, Markup.cell ⟨2, 1, none, some [30]⟩),
            (1, Markup.cell ⟨2, 1, none, some [30]⟩),
            (0, Markup.row ⟨some [30]⟩)] := by
  decide

/-! ## Claim C2: idempotent commits -/

/-- Counterexample to C2 as stated: on `tabHinted` the single boundary cell
already stores rowheight 30 and is skipped, so no cell along the boundary
changes value; the claim says the whole transaction is then dropped, but the
unconditional row-node markup (src/resizing.ts line 476) keeps the step list
nonempty, `tr.docChanged` holds, and the transaction is dispatched. -/
theorem c2_row_second_commit_not_dropped :
    rowUpdates tabHinted 1 30 = some [(0, Markup.row ⟨some [30]⟩)] ∧
    dispatchedRowTx tabHinted 1 30 ≠ none := by
  decide

/-! ## Claim C6: the row-level write of a row commit -/

/-- Counterexample to C6 as stated: on `tabMix` the handle cell at offset 1
spans rows 0–1, so the target row of the commit is row 1 (its node starts at
offset 8), yet the row-node markup is written at `$cell.before()` — offset 0,
the row containing the handle cell — and no update touches offset 8. -/
theorem c6_rowspan_handle_row_write :
    rowUpdates tabMix 1 40 = some tabMixRowCommit ∧
    targetRow (TableMap.get tabMix) 1 ⟨1, 2, none, none⟩ = 1 ∧
    tabMix.rowSpans = [(0, 8), (8, 5)] ∧
    tabMixRowCommit.all (fun u => u.1 != 8) = true := by
  decide

/-! ## Structural lemmas: offsets are strictly increasing -/

theorem rowEntriesFrom_bounds :
    ∀ (cs : List Cell) (off : Nat), ∀ e ∈ rowEntriesFrom off cs,
      off ≤ e.1 ∧ e.1 < off + (cs.map cellSize).sum := by
  intro cs
  induction cs with
  | nil => intro off e he; simp [rowEntriesFrom] at he
  | cons c cs ih =>
    intro off e he
    rcases List.mem_cons.1 he with rfl | hm
    · have : 0 < cellSize c := by unfold cellSize; omega
      simp
      omega
    · obtain ⟨h1, h2⟩ := ih (off + cellSize c) e hm
      simp only [List.map_cons, List.sum_cons]
      omega

theorem rowEntriesFrom_pairwise :
    ∀ (cs : List Cell) (off : Nat),
      (rowEntriesFrom off cs).Pairwise (fun a b => a.1 < b.1) := by
  intro cs
  induction cs with
  | nil => intro off; exact List.Pairwise.nil
  | cons c cs ih =>
    intro off
    rw [rowEntriesFrom, List.pairwise_cons]
    refine ⟨fun e he => ?_, ih _⟩
    have h1 := (rowEntriesFrom_bounds cs (off + cellSize c) e he).1
    have : 0 < cellSize c := by unfold cellSize; omega
    omega

theorem cellEntriesFrom_bounds :
    ∀ (rows : List Row) (ri off : Nat), ∀ e ∈ cellEntriesFrom ri off rows,
      off < e.offset ∧ e.offset < off + (rows.map rowSize).sum := by
  intro rows
  induction rows with
  | nil => intro ri off e he; simp [cellEntriesFrom] at he
  | cons r rs ih =>
    intro ri off e he
    have hr2 : (r.cells.map cellSize).sum + 2 = rowSize r := rfl
    rw [cellEntriesFrom] at he
    rcases List.mem_append.1 he with hm | hm
    · obtain ⟨e0, he0, rfl⟩ := List.mem_map.1 hm
      obtain ⟨h1, h2⟩ := rowEntriesFrom_bounds r.cells (off + 1) e0 he0
      refine ⟨?_, ?_⟩
      · show off < e0.1
        omega
      · show e0.1 < off + ((r :: rs).map rowSize).sum
        simp only [List.map_cons, List.sum_cons]
        omega
    · obtain ⟨h1, h2⟩ := ih (ri + 1) (off + rowSize r) e hm
      simp only [List.map_cons, List.sum_cons]
      omega

theorem cellEntriesFrom_pairwise :
    ∀ (rows : List Row) (ri off : Nat),
      (cellEntriesFrom ri off rows).Pairwise (fun a b => a.offset < b.offset) := by
  intro rows
  induction rows with
  | nil => intro ri off; exact List.Pairwise.nil
  | cons r rs ih =>
    intro ri off
    rw [cellEntriesFrom, List.pairwise_append]
    refine ⟨?_, ih _ _, ?_⟩
    · exact (rowEntriesFrom_pairwise r.cells (off + 1)).map _ (fun a b hab => hab)
    · intro a ha b hb
      obtain ⟨a0, ha0, rfl⟩ := List.mem_map.1 ha
      have h2 := (rowEntriesFrom_bounds r.cells (off + 1) a0 ha0).2
      have h3 := (cellEntriesFrom_bounds rs (ri + 1) (off + rowSize r) b hb).1
      have hr2 : (r.cells.map cellSize).sum + 2 = rowSize r := rfl
      show a0.1 < b.offset
      omega

theorem cellEntries_pairwise (t : Table) :
    t.cellEntries.Pairwise (fun a b => a.offset < b.offset) :=
  cellEntriesFrom_pairwise t.rows 0 0

/-- In a list of entries with strictly increasing offsets, searching for a
member's offset finds exactly that member. -/
theorem find?_unique_offset :
    ∀ (l : List CellEntry), l.Pairwise (fun a b => a.offset < b.offset) →
      ∀ e ∈ l, l.find? (fun x => x.offset == e.offset) = some e := by
  intro l
  induction l with
  | nil => intro _ e he; simp at he
  | cons a l ih =>
    intro hp e he
    obtain ⟨hhead, htail⟩ := List.pairwise_cons.1 hp
    rcases List.mem_cons.1 he with rfl | hm
    · exact List.find?_cons_of_pos _ (by simp)
    · have hne : a.offset ≠ e.offset := Nat.ne_of_lt (hhead e hm)
      rw [List.find?_cons_of_neg _ (by simpa using hne)]
      exact ih htail e hm

/-- Every cell entry is what `nodeAt` reports at its own offset. -/
theorem nodeAt_mem (t : Table) : ∀ e ∈ t.cellEntries, t.nodeAt e.offset = some e.attrs := by
  intro e he
  unfold Table.nodeAt
  rw [find?_unique_offset t.cellEntries (cellEntries_pairwise t) e he]
  rfl

/-! ## Structural lemmas: `setCellMarkup` -/

theorem setCellsFrom_sizes :
    ∀ (cs : List Cell) (off ps : Nat) (a : CellAttrs),
      (setCellsFrom off ps a cs).map cellSize = cs.map cellSize := by
  intro cs
  induction cs with
  | nil => intro off ps a; rfl
  | cons c cs ih =>
    intro off ps a
    rw [setCellsFrom, List.map_cons, List.map_cons, ih]
    by_cases h : off = ps <;> simp [h, cellSize]

theorem rowSize_setCells (r : Row) (off ps : Nat) (a : CellAttrs) :
    rowSize ⟨r.attrs, setCellsFrom off ps a r.cells⟩ = rowSize r := by
  unfold rowSize
  rw [setCellsFrom_sizes]

theorem rowEntriesFrom_setCells :
    ∀ (cs : List Cell) (off ps : Nat) (a : CellAttrs),
      rowEntriesFrom off (setCellsFrom off ps a cs) =
        (rowEntriesFrom off cs).map (fun e => if e.1 = ps then (e.1, a) else e) := by
  intro cs
  induction cs with
  | nil => intro off ps a; rfl
  | cons c cs ih =>
    intro off ps a
    rw [setCellsFrom, rowEntriesFrom, rowEntriesFrom, List.map_cons]
    by_cases h : off = ps
    · rw [if_pos h, if_pos h]
      show ((off, a) : Nat × CellAttrs) :: rowEntriesFrom (off + cellSize c) _ = _
      rw [ih]
    · rw [if_neg h, if_neg h]
      show ((off, c.attrs) : Nat × CellAttrs) :: rowEntriesFrom (off + cellSize c) _ = _
      rw [ih]

theorem cellEntriesFrom_setRowsCell :
    ∀ (rows : List Row) (ri off ps : Nat) (a : CellAttrs),
      cellEntriesFrom ri off (setRowsCellFrom off ps a rows) =
        (cellEntriesFrom ri off rows).map
          (fun e => if e.offset = ps then ⟨e.row, e.offset, a⟩ else e) := by
  intro rows
  induction rows with
  | nil => intro ri off ps a; rfl
  | cons r rs ih =>
    intro ri off ps a
    rw [setRowsCellFrom, cellEntriesFrom, cellEntriesFrom, List.map_append]
    have hcells :
        rowEntriesFrom (off + 1) (setCellsFrom (off + 1) ps a r.cells) =
          (rowEntriesFrom (off + 1) r.cells).map (fun e => if e.1 = ps then (e.1, a) else e) :=
      rowEntriesFrom_setCells r.cells (off + 1) ps a
    have hhead :
        (rowEntriesFrom (off + 1) (setCellsFrom (off + 1) ps a r.cells)).map
            (fun e => (⟨ri, e.1, e.2⟩ : CellEntry)) =
          ((rowEntriesFrom (off + 1) r.cells).map (fun e => (⟨ri, e.1, e.2⟩ : CellEntry))).map
            (fun e => if e.offset = ps then ⟨e.row, e.offset, a⟩ else e) := by
      rw [hcells, List.map_map, List.map_map]
      refine List.map_congr_left (fun e he => ?_)
      by_cases h : e.1 = ps <;> simp [h]
    rw [hhead, rowSize_setCells, ih]

theorem cellEntries_setCellMarkup (t : Table) (ps : Nat) (a : CellAttrs) :
    (setCellMarkup t ps a).cellEntries =
      t.cellEntries.map (fun e => if e.offset = ps then ⟨e.row, e.offset, a⟩ else e) :=
  cellEntriesFrom_setRowsCell t.rows 0 0 ps a

theorem nodeAt_setCellMarkup (t : Table) (ps : Nat) (a : CellAttrs) (q : Nat) :
    (setCellMarkup t ps a).nodeAt q =
      if q = ps then (t.nodeAt ps).map (fun _ => a) else t.nodeAt q := by
  unfold Table.nodeAt
  rw [cellEntries_setCellMarkup, List.find?_map]
  have hpred :
      ((fun e : CellEntry => e.offset == q) ∘
          (fun e : CellEntry => if e.offset = ps then ⟨e.row, e.offset, a⟩ else e)) =
        (fun e : CellEntry => e.offset == q) := by
    funext e
    by_cases h : e.offset = ps <;> simp [h]
  rw [hpred]
  cases hf : t.cellEntries.find? (fun e => e.offset == q) with
  | none =>
    by_cases hq : q = ps
    · subst hq
      rw [if_pos rfl, hf]
      rfl
    · rw [if_neg hq]
      rfl
  | some e =>
    have hoff : e.offset = q := by simpa using List.find?_some hf
    by_cases hq : q = ps
    · subst hq
      rw [if_pos rfl, hf]
      show some (if e.offset = q then (⟨e.row, e.offset, a⟩ : CellEntry) else e).attrs = some a
      rw [if_pos hoff]
    · rw [if_neg hq]
      show some (if e.offset = ps then (⟨e.row, e.offset, a⟩ : CellEntry) else e).attrs =
        some e.attrs
      rw [if_neg (by rw [hoff]; exact hq)]

theorem rowNodesFrom_setRowsCell :
    ∀ (rows : List Row) (off ps : Nat) (a : CellAttrs),
      rowNodesFrom off (setRowsCellFrom off ps a rows) =
        (rowNodesFrom off rows).map
          (fun e => (e.1, ⟨e.2.attrs, setCellsFrom (e.1 + 1) ps a e.2.cells⟩)) := by
  intro rows
  induction rows with
  | nil => intro off ps a; rfl
  | cons r rs ih =>
    intro off ps a
    rw [setRowsCellFrom, rowNodesFrom, rowNodesFrom, List.map_cons]
    rw [show ({ r with cells := setCellsFrom (off + 1) ps a r.cells } : Row) =
      ⟨r.attrs, setCellsFrom (off + 1) ps a r.cells⟩ from rfl]
    rw [rowSize_setCells, ih]

theorem rowSpans_setCellMarkup (t : Table) (ps : Nat) (a : CellAttrs) :
    (setCellMarkup t ps a).rowSpans = t.rowSpans := by
  unfold Table.rowSpans Table.rowNodes
  show (rowNodesFrom 0 (setRowsCellFrom 0 ps a t.rows)).map _ = _
  rw [rowNodesFrom_setRowsCell, List.map_map]
  refine List.map_congr_left (fun e he => ?_)
  show (e.1, rowSize ⟨e.2.attrs, setCellsFrom (e.1 + 1) ps a e.2.cells⟩) = (e.1, rowSize e.2)
  rw [rowSize_setCells]

theorem rowPosOf_setCellMarkup (t : Table) (ps : Nat) (a : CellAttrs) (q : Nat) :
    (setCellMarkup t ps a).rowPosOf q = t.rowPosOf q := by
  unfold Table.rowPosOf
  rw [rowSpans_setCellMarkup]

theorem rowAttrsAt_setCellMarkup (t : Table) (ps : Nat) (a : CellAttrs) (q : Nat) :
    (setCellMarkup t ps a).rowAttrsAt q = t.rowAttrsAt q := by
  unfold Table.rowAttrsAt Table.rowNodes
  show ((rowNodesFrom 0 (setRowsCellFrom 0 ps a t.rows)).find? _).map _ = _
  rw [rowNodesFrom_setRowsCell, List.find?_map]
  have hpred :
      ((fun e : Nat × Row => e.1 == q) ∘
          (fun e : Nat × Row => (e.1, (⟨e.2.attrs, setCellsFrom (e.1 + 1) ps a e.2.cells⟩ : Row)))) =
        (fun e : Nat × Row => e.1 == q) := by
    funext e
    rfl
  rw [hpred]
  cases hf : (rowNodesFrom 0 t.rows).find? (fun e => e.1 == q) <;> rfl

/-! ## Structural lemmas: `setRowMarkup` -/

theorem rowSize_setAttrs (r : Row) (a : RowAttrs) : rowSize ⟨a, r.cells⟩ = rowSize r := rfl

theorem rowNodesFrom_setRowsRow :
    ∀ (rows : List Row) (off ps : Nat) (a : RowAttrs),
      rowNodesFrom off (setRowsRowFrom off ps a rows) =
        (rowNodesFrom off rows).map
          (fun e => if e.1 = ps then (e.1, ⟨a, e.2.cells⟩) else e) := by
  intro rows
  induction rows with
  | nil => intro off ps a; rfl
  | cons r rs ih =>
    intro off ps a
    rw [setRowsRowFrom, rowNodesFrom, rowNodesFrom, List.map_cons]
    by_cases h : off = ps
    · rw [if_pos h, if_pos h]
      show (off, ({ r with attrs := a } : Row)) :: rowNodesFrom (off + rowSize r) _ = _
      rw [show ({ r with attrs := a } : Row) = ⟨a, r.cells⟩ from rfl, ih]
    · rw [if_neg h, if_neg h]
      show (off, r) :: rowNodesFrom (off + rowSize r) _ = _
      rw [ih]

theorem cellEntriesFrom_setRowsRow :
    ∀ (rows : List Row) (ri off ps : Nat) (a : RowAttrs),
      cellEntriesFrom ri off (setRowsRowFrom off ps a rows) = cellEntriesFrom ri off rows := by
  intro rows
  induction rows with
  | nil => intro ri off ps a; rfl
  | cons r rs ih =>
    intro ri off ps a
    rw [setRowsRowFrom, cellEntriesFrom, cellEntriesFrom]
    by_cases h : off = ps
    · rw [if_pos h]
      show ((rowEntriesFrom (off + 1) r.cells).map _) ++
          cellEntriesFrom (ri + 1) (off + rowSize ({ r with attrs := a } : Row)) _ = _
      rw [show rowSize ({ r with attrs := a } : Row) = rowSize r from rfl, ih]
    · rw [if_neg h, ih]

theorem nodeAt_setRowMarkup (t : Table) (ps : Nat) (a : RowAttrs) (q : Nat) :
    (setRowMarkup t ps a).nodeAt q = t.nodeAt q := by
  unfold Table.nodeAt Table.cellEntries
  show ((cellEntriesFrom 0 0 (setRowsRowFrom 0 ps a t.rows)).find? _).map _ = _
  rw [cellEntriesFrom_setRowsRow]

theorem tableShapes_setRowMarkup (t : Table) (ps : Nat) (a : RowAttrs) :
    tableShapes (setRowMarkup t ps a) = tableShapes t := by
  unfold tableShapes Table.cellEntries
  show ((cellEntriesFrom 0 0 (setRowsRowFrom 0 ps a t.rows)).map _) = _
  rw [cellEntriesFrom_setRowsRow]

theorem rowSpans_setRowMarkup (t : Table) (ps : Nat) (a : RowAttrs) :
    (setRowMarkup t ps a).rowSpans = t.rowSpans := by
  unfold Table.rowSpans Table.rowNodes
  show (rowNodesFrom 0 (setRowsRowFrom 0 ps a t.rows)).map _ = _
  rw [rowNodesFrom_setRowsRow, List.map_map]
  refine List.map_congr_left (fun e he => ?_)
  by_cases h : e.1 = ps <;> simp [h, rowSize_setAttrs]

theorem rowPosOf_setRowMarkup (t : Table) (ps : Nat) (a : RowAttrs) (q : Nat) :
    (setRowMarkup t ps a).rowPosOf q = t.rowPosOf q := by
  unfold Table.rowPosOf
  rw [rowSpans_setRowMarkup]

theorem rowAttrsAt_setRowMarkup (t : Table) (ps : Nat) (a : RowAttrs) (q : Nat) :
    (setRowMarkup t ps a).rowAttrsAt q =
      if q = ps then (t.rowAttrsAt ps).map (fun _ => a) else t.rowAttrsAt q := by
  unfold Table.rowAttrsAt Table.rowNodes
  show ((rowNodesFrom 0 (setRowsRowFrom 0 ps a t.rows)).find? _).map _ = _
  rw [rowNodesFrom_setRowsRow, List.find?_map]
  have hpred :
      ((fun e : Nat × Row => e.1 == q) ∘
          (fun e : Nat × Row => if e.1 = ps then (e.1, (⟨a, e.2.cells⟩ : Row)) else e)) =
        (fun e : Nat × Row => e.1 == q) := by
    funext e
    by_cases h : e.1 = ps <;> simp [h]
  rw [hpred]
  cases hf : (rowNodesFrom 0 t.rows).find? (fun e => e.1 == q) with
  | none =>
    by_cases hq : q = ps
    · subst hq
      rw [if_pos rfl, hf]
      rfl
    · rw [if_neg hq]
      rfl
  | some e =>
    have hoff : e.1 = q := by simpa using List.find?_some hf
    by_cases hq : q = ps
    · subst hq
      rw [if_pos rfl, hf]
      show some (if e.1 = q then (e.1, (⟨a, e.2.cells⟩ : Row)) else e).2.attrs = some a
      rw [if_pos hoff]
    · rw [if_neg hq]
      show some (if e.1 = ps then (e.1, (⟨a, e.2.cells⟩ : Row)) else e).2.attrs = some e.2.attrs
      rw [if_neg (by rw [hoff]; exact hq)]

theorem rowNodes_attrs_setRowMarkup (t : Table) (ps : Nat) (a : RowAttrs) :
    ∀ e ∈ (setRowMarkup t ps a).rowNodes, e.1 = ps → e.2.attrs = a := by
  intro e he hps
  unfold Table.rowNodes at he
  rw [show (setRowMarkup t ps a).rows = setRowsRowFrom 0 ps a t.rows from rfl,
    rowNodesFrom_setRowsRow] at he
  obtain ⟨e0, he0, rfl⟩ := List.mem_map.1 he
  by_cases h : e0.1 = ps
  · rw [if_pos h]
  · rw [if_neg h] at hps
    exact absurd hps h

theorem setRowsRowFrom_noop :
    ∀ (rows : List Row) (off ps : Nat) (a : RowAttrs),
      (∀ e ∈ rowNodesFrom off rows, e.1 = ps → e.2.attrs = a) →
      setRowsRowFrom off ps a rows = rows := by
  intro rows
  induction rows with
  | nil => intro off ps a _; rfl
  | cons r rs ih =>
    intro off ps a hyp
    rw [setRowsRowFrom]
    by_cases h : off = ps
    · have hattrs : r.attrs = a := hyp (off, r) (by rw [rowNodesFrom]; simp) h
      have hhead : ({ r with attrs := a } : Row) = r := by
        rw [← hattrs]
      rw [if_pos h, hhead, ih (off + rowSize r) ps a
        (fun e he hps => hyp e (by rw [rowNodesFrom]; exact List.mem_cons_of_mem _ he) hps)]
    · rw [if_neg h,
        ih (off + rowSize r) ps a
          (fun e he hps => hyp e (by rw [rowNodesFrom]; exact List.mem_cons_of_mem _ he) hps)]

theorem setRowMarkup_noop (t : Table) (ps : Nat) (a : RowAttrs)
    (hyp : ∀ e ∈ t.rowNodes, e.1 = ps → e.2.attrs = a) : setRowMarkup t ps a = t := by
  unfold setRowMarkup
  rw [setRowsRowFrom_noop t.rows 0 ps a hyp]

/-! ## Shape invariance and map stability under committed updates -/

theorem tableShapes_setCellMarkup (t : Table) (ps : Nat) (a : CellAttrs)
    (hyp : ∀ s ∈ tableShapes t, s.offset = ps → s.colspan = a.colspan ∧ s.rowspan = a.rowspan) :
    tableShapes (setCellMarkup t ps a) = tableShapes t := by
  unfold tableShapes
  rw [cellEntries_setCellMarkup, List.map_map]
  refine List.map_congr_left (fun e he => ?_)
  by_cases h : e.offset = ps
  · obtain ⟨hc, hr⟩ := hyp e.shape (List.mem_map_of_mem _ he) h
    show CellEntry.shape (if e.offset = ps then ⟨e.row, e.offset, a⟩ else e) = e.shape
    rw [if_pos h]
    unfold CellEntry.shape at hc hr ⊢
    simp only at hc hr
    rw [← hc, ← hr]
  · show CellEntry.shape (if e.offset = ps then ⟨e.row, e.offset, a⟩ else e) = e.shape
    rw [if_neg h]

theorem rowsLength_setCellMarkup (t : Table) (ps : Nat) (a : CellAttrs) :
    (setCellMarkup t ps a).rows.length = t.rows.length := by
  show (setRowsCellFrom 0 ps a t.rows).length = t.rows.length
  generalize 0 = off
  induction t.rows generalizing off with
  | nil => rfl
  | cons r rs ih => rw [setRowsCellFrom, List.length_cons, List.length_cons, ih]

theorem rowsLength_setRowMarkup (t : Table) (ps : Nat) (a : RowAttrs) :
    (setRowMarkup t ps a).rows.length = t.rows.length := by
  show (setRowsRowFrom 0 ps a t.rows).length = t.rows.length
  generalize 0 = off
  induction t.rows generalizing off with
  | nil => rfl
  | cons r rs ih =>
    rw [setRowsRowFrom]
    by_cases h : off = ps <;> simp [h, ih]

theorem tableMap_congr (t1 t2 : Table) (hs : tableShapes t1 = tableShapes t2)
    (hl : t1.rows.length = t2.rows.length) : TableMap.get t1 = TableMap.get t2 := by
  unfold TableMap.get
  rw [hs, hl]

theorem applyUpdate_tableShapes (t : Table) (u : Update) (h : updOk t u) :
    tableShapes (applyUpdate t u) = tableShapes t := by
  unfold applyUpdate
  cases hu : u.2 with
  | cell a =>
    unfold updOk at h
    rw [hu] at h
    exact tableShapes_setCellMarkup t u.1 a h
  | row a => exact tableShapes_setRowMarkup t u.1 a

theorem applyUpdate_rowsLength (t : Table) (u : Update) :
    (applyUpdate t u).rows.length = t.rows.length := by
  unfold applyUpdate
  cases u.2 with
  | cell a => exact rowsLength_setCellMarkup t u.1 a
  | row a => exact rowsLength_setRowMarkup t u.1 a

theorem applyUpdate_rowSpans (t : Table) (u : Update) :
    (applyUpdate t u).rowSpans = t.rowSpans := by
  unfold applyUpdate
  cases u.2 with
  | cell a => exact rowSpans_setCellMarkup t u.1 a
  | row a => exact rowSpans_setRowMarkup t u.1 a

theorem applyTx_append_one (t : Table) (us : List Update) (u : Update) :
    applyTx t (us ++ [u]) = applyUpdate (applyTx t us) u := by
  unfold applyTx
  rw [List.foldl_append]
  rfl

theorem applyTx_invariants (t : Table) :
    ∀ (us : List Update), (∀ u ∈ us, updOk t u) →
      tableShapes (applyTx t us) = tableShapes t ∧
      (applyTx t us).rows.length = t.rows.length ∧
      (applyTx t us).rowSpans = t.rowSpans := by
  intro us
  induction us using List.reverseRecOn with
  | nil => exact fun _ => ⟨rfl, rfl, rfl⟩
  | append_singleton us u ih =>
    intro hok
    obtain ⟨hs, hl, hr⟩ := ih (fun v hv => hok v (List.mem_append_left _ hv))
    have hoklast : updOk (applyTx t us) u := by
      have h0 := hok u (List.mem_append_right _ (by simp))
      unfold updOk at h0 ⊢
      cases hu : u.2 with
      | cell a =>
        rw [hu] at h0
        show ∀ s ∈ tableShapes (applyTx t us), s.offset = u.1 →
          s.colspan = a.colspan ∧ s.rowspan = a.rowspan
        rw [hs]
        exact h0
      | row a => trivial
    rw [applyTx_append_one]
    exact ⟨by rw [applyUpdate_tableShapes _ _ hoklast, hs],
      by rw [applyUpdate_rowsLength, hl],
      by rw [applyUpdate_rowSpans, hr]⟩

theorem applyTx_tableMap (t : Table) (us : List Update) (h : ∀ u ∈ us, updOk t u) :
    TableMap.get (applyTx t us) = TableMap.get t := by
  obtain ⟨hs, hl, -⟩ := applyTx_invariants t us h
  exact tableMap_congr _ _ hs hl

theorem applyTx_rowPosOf (t : Table) (us : List Update) (h : ∀ u ∈ us, updOk t u) (q : Nat) :
    (applyTx t us).rowPosOf q = t.rowPosOf q := by
  obtain ⟨-, -, hr⟩ := applyTx_invariants t us h
  unfold Table.rowPosOf
  rw [hr]

/-! ## The updates a commit emits -/

theorem colStep_extend (t : Table) (tm : TableMap) (col : Nat) (w : ℚ)
    (a : List Update) (x : Nat) (r : List Update) (hx : x ∈ List.range tm.height)
    (h : colStep t tm col w a x = some r) :
    ∃ s, r = a ++ s ∧ ∀ e ∈ s, colEmittedAt t tm col w e := by
  have hx2 : x < tm.height := List.mem_range.1 hx
  unfold colStep at h
  simp only [] at h
  split at h
  · refine ⟨[], ?_, by simp⟩
    rw [List.append_nil]
    exact (Option.some.inj h).symm
  · cases hn : t.nodeAt (tm.map.getD (x * tm.width + col) 0) with
    | none =>
      rw [hn] at h
      exact absurd h (by simp)
    | some attrs =>
      rw [hn] at h
      simp only [] at h
      cases hcw : attrs.colwidth with
      | some cw =>
        rw [hcw] at h
        simp only [] at h
        by_cases hif : cw[colTouchIndex tm col (tm.map.getD (x * tm.width + col) 0) attrs]? =
            some w
        · rw [if_pos hif] at h
          refine ⟨[], ?_, by simp⟩
          rw [List.append_nil]
          exact (Option.some.inj h).symm
        · rw [if_neg hif] at h
          refine ⟨[(tm.map.getD (x * tm.width + col) 0,
            Markup.cell (colNewAttrs tm col w (tm.map.getD (x * tm.width + col) 0) attrs))],
            (Option.some.inj h).symm, ?_⟩
          intro e he
          rw [List.mem_singleton.1 he]
          exact ⟨x, hx2, rfl, attrs, hn, rfl⟩
      | none =>
        rw [hcw] at h
        simp only [] at h
        refine ⟨[(tm.map.getD (x * tm.width + col) 0,
          Markup.cell (colNewAttrs tm col w (tm.map.getD (x * tm.width + col) 0) attrs))],
          (Option.some.inj h).symm, ?_⟩
        intro e he
        rw [List.mem_singleton.1 he]
        exact ⟨x, hx2, rfl, attrs, hn, rfl⟩

theorem rowStep_extend (t : Table) (tm : TableMap) (row : Nat) (hv : ℚ)
    (a : List Update) (x : Nat) (r : List Update) (hx : x ∈ List.range tm.width)
    (h : rowStep t tm row hv a x = some r) :
    ∃ s, r = a ++ s ∧ ∀ e ∈ s, rowEmittedAt t tm row hv e := by
  have hx2 : x < tm.width := List.mem_range.1 hx
  unfold rowStep at h
  simp only [] at h
  split at h
  · refine ⟨[], ?_, by simp⟩
    rw [List.append_nil]
    exact (Option.some.inj h).symm
  · cases hn : t.nodeAt (tm.map.getD (x + row * tm.width) 0) with
    | none =>
      rw [hn] at h
      exact absurd h (by simp)
    | some attrs =>
      rw [hn] at h
      simp only [] at h
      cases hrh : attrs.rowheight with
      | some rh =>
        rw [hrh] at h
        simp only [] at h
        by_cases hif : rh[rowTouchIndex tm row (tm.map.getD (x + row * tm.width) 0) attrs]? =
            some hv
        · rw [if_pos hif] at h
          refine ⟨[], ?_, by simp⟩
          rw [List.append_nil]
          exact (Option.some.inj h).symm
        · rw [if_neg hif] at h
          refine ⟨[(tm.map.getD (x + row * tm.width) 0,
            Markup.cell (rowNewAttrs tm row hv (tm.map.getD (x + row * tm.width) 0) attrs))],
            (Option.some.inj h).symm, ?_⟩
          intro e he
          rw [List.mem_singleton.1 he]
          exact ⟨x, hx2, rfl, attrs, hn, rfl⟩
      | none =>
        rw [hrh] at h
        simp only [] at h
        refine ⟨[(tm.map.getD (x + row * tm.width) 0,
          Markup.cell (rowNewAttrs tm row hv (tm.map.getD (x + row * tm.width) 0) attrs))],
          (Option.some.inj h).symm, ?_⟩
        intro e he
        rw [List.mem_singleton.1 he]
        exact ⟨x, hx2, rfl, attrs, hn, rfl⟩

theorem colEmitted_updOk (t : Table) (tm : TableMap) (col : Nat) (w : ℚ) (u : Update)
    (h : colEmittedAt t tm col w u) : updOk t u := by
  obtain ⟨row, -, -, attrs, hna, hmk⟩ := h
  unfold updOk
  rw [hmk]
  intro s hs hoff
  obtain ⟨e, he, rfl⟩ := List.mem_map.1 hs
  have := nodeAt_mem t e he
  rw [show (CellEntry.shape e).offset = e.offset from rfl] at hoff
  rw [hoff] at this
  rw [hna] at this
  have hattrs : e.attrs = attrs := by
    injection this with hh
    exact hh.symm
  constructor
  · show e.attrs.colspan = (colNewAttrs tm col w u.1 attrs).colspan
    rw [hattrs]
    rfl
  · show e.attrs.rowspan = (colNewAttrs tm col w u.1 attrs).rowspan
    rw [hattrs]
    rfl

theorem rowEmitted_updOk (t : Table) (tm : TableMap) (row : Nat) (hv : ℚ) (u : Update)
    (h : rowEmittedAt t tm row hv u) : updOk t u := by
  obtain ⟨col, -, -, attrs, hna, hmk⟩ := h
  unfold updOk
  rw [hmk]
  intro s hs hoff
  obtain ⟨e, he, rfl⟩ := List.mem_map.1 hs
  have := nodeAt_mem t e he
  rw [show (CellEntry.shape e).offset = e.offset from rfl] at hoff
  rw [hoff] at this
  rw [hna] at this
  have hattrs : e.attrs = attrs := by
    injection this with hh
    exact hh.symm
  constructor
  · show e.attrs.colspan = (rowNewAttrs tm row hv u.1 attrs).colspan
    rw [hattrs]
    rfl
  · show e.attrs.rowspan = (rowNewAttrs tm row hv u.1 attrs).rowspan
    rw [hattrs]
    rfl

theorem rowMarkup_updOk (t : Table) (p : Nat) (a : RowAttrs) : updOk t (p, Markup.row a) :=
  trivial

/-- Evaluating `nodeAt` after applying a list of cell markups, each computed from the
original table by one fixed attribute transformation. -/
theorem nodeAt_applyTx_fun (t : Table) (f : Nat → CellAttrs → CellAttrs) :
    ∀ (us : List Update),
      (∀ u ∈ us, ∃ attrs, t.nodeAt u.1 = some attrs ∧ u.2 = Markup.cell (f u.1 attrs)) →
      ∀ q, (applyTx t us).nodeAt q =
        if us.any (fun u => u.1 == q) then (t.nodeAt q).map (f q) else t.nodeAt q := by
  intro us
  induction us using List.reverseRecOn with
  | nil => intro _ q; simp [applyTx]
  | append_singleton us u ih =>
    intro hall q
    obtain ⟨attrs, hna, hmk⟩ := hall u (List.mem_append_right _ (by simp))
    rw [applyTx_append_one]
    have hu2 : applyUpdate (applyTx t us) u = setCellMarkup (applyTx t us) u.1 (f u.1 attrs) := by
      unfold applyUpdate
      rw [hmk]
    rw [hu2, nodeAt_setCellMarkup]
    have ihq := ih (fun v hv => hall v (List.mem_append_left _ hv))
    by_cases hq : q = u.1
    · rw [if_pos hq, hq, ihq u.1]
      by_cases hmem : us.any (fun v => v.1 == u.1)
      · rw [if_pos hmem, if_pos (by simp [List.any_append]), hna]
        rfl
      · rw [if_neg hmem, if_pos (by simp [List.any_append]), hna]
        rfl
    · rw [if_neg hq, ihq q]
      have hanyeq : ((us ++ [u]).any (fun v => v.1 == q)) = (us.any (fun v => v.1 == q)) := by
        rw [List.any_append]
        simp only [List.any_cons, List.any_nil, Bool.or_false]
        rw [show (u.1 == q) = false by simpa using fun hc => hq hc.symm]
        simp
      rw [hanyeq]

theorem nodeAt_applyTx_snoc_row (t : Table) (us : List Update) (rp : Nat) (a : RowAttrs)
    (q : Nat) :
    (applyTx t (us ++ [(rp, Markup.row a)])).nodeAt q = (applyTx t us).nodeAt q := by
  rw [applyTx_append_one]
  show (setRowMarkup (applyTx t us) rp a).nodeAt q = _
  rw [nodeAt_setRowMarkup]

theorem rowAttrsAt_applyTx_cells (t : Table) :
    ∀ (us : List Update), (∀ u ∈ us, ∃ a, u.2 = Markup.cell a) →
      ∀ q, (applyTx t us).rowAttrsAt q = t.rowAttrsAt q := by
  intro us
  induction us using List.reverseRecOn with
  | nil => intro _ q; rfl
  | append_singleton us u ih =>
    intro hall q
    obtain ⟨a, hmk⟩ := hall u (List.mem_append_right _ (by simp))
    rw [applyTx_append_one]
    have hu2 : applyUpdate (applyTx t us) u = setCellMarkup (applyTx t us) u.1 a := by
      unfold applyUpdate
      rw [hmk]
    rw [hu2, rowAttrsAt_setCellMarkup]
    exact ih (fun v hv => hall v (List.mem_append_left _ hv)) q

theorem applyTx_rowSpans (t : Table) :
    ∀ (us : List Update), (applyTx t us).rowSpans = t.rowSpans := by
  intro us
  induction us using List.reverseRecOn with
  | nil => rfl
  | append_singleton us u ih =>
    rw [applyTx_append_one, applyUpdate_rowSpans, ih]

theorem applyTx_rowPosOf_any (t : Table) (us : List Update) (q : Nat) :
    (applyTx t us).rowPosOf q = t.rowPosOf q := by
  unfold Table.rowPosOf
  rw [applyTx_rowSpans]

/-! ## Claim C6 (amended): the markups a commit writes -/

/-- C6 amended: every row commit appends, after the per-cell markups,
exactly one unconditional row-node markup whose rowheight is exactly
`[newHeight]` — written at the row node containing the handle cell
(`$cell.before()`), which is the target row exactly when the handle cell
spans one row; and column commits write only cell markups, never a
row-level or table-level attribute. -/
theorem c6_row_commit_row_markup (t : Table) (cellPos : Nat) (hv w : ℚ) :
    (∀ us, rowUpdates t cellPos hv = some us →
      ∃ tr rowPos, t.rowPosOf cellPos = some rowPos ∧
        us = tr ++ [(rowPos, Markup.row ⟨some [hv]⟩)] ∧
        ∀ u ∈ tr, ∃ a, u.2 = Markup.cell a) ∧
    (∀ us, columnUpdates t cellPos w = some us →
      ∀ u ∈ us, ∃ a, u.2 = Markup.cell a) := by
  constructor
  · intro us h
    unfold rowUpdates at h
    simp only [] at h
    cases hn : t.nodeAt cellPos with
    | none => rw [hn] at h; exact absurd h (by simp)
    | some cell =>
      rw [hn] at h
      simp only [] at h
      cases hf : (List.range (TableMap.get t).width).foldlM
          (rowStep t (TableMap.get t) (targetRow (TableMap.get t) cellPos cell) hv) [] with
      | none => rw [hf] at h; exact absurd h (by simp)
      | some tr =>
        rw [hf] at h
        simp only [] at h
        cases hrp : t.rowPosOf cellPos with
        | none => rw [hrp] at h; exact absurd h (by simp)
        | some rowPos =>
          rw [hrp] at h
          simp only [] at h
          refine ⟨tr, rowPos, rfl, (Option.some.inj h).symm, ?_⟩
          obtain ⟨⟨s, hs, hPs⟩, -⟩ :=
            foldlM_option_facts _
              (rowEmittedAt t (TableMap.get t) (targetRow (TableMap.get t) cellPos cell) hv) _
              (fun a x r hx hr => rowStep_extend t _ _ hv a x r hx hr) [] tr hf
          rw [List.nil_append] at hs
          intro u hu
          obtain ⟨c2, -, -, attrs, -, hmk⟩ := hPs u (hs ▸ hu)
          exact ⟨_, hmk⟩
  · intro us h
    unfold columnUpdates at h
    simp only [] at h
    cases hn : t.nodeAt cellPos with
    | none => rw [hn] at h; exact absurd h (by simp)
    | some cell =>
      rw [hn] at h
      simp only [] at h
      obtain ⟨⟨s, hs, hPs⟩, -⟩ :=
        foldlM_option_facts _
          (colEmittedAt t (TableMap.get t) (targetCol (TableMap.get t) cellPos cell) w) _
          (fun a x r hx hr => colStep_extend t _ _ w a x r hx hr) [] us h
      rw [List.nil_append] at hs
      intro u hu
      obtain ⟨r2, -, -, attrs, -, hmk⟩ := hPs u (hs ▸ hu)
      exact ⟨_, hmk⟩

/-- Witness for the amended C6 on the 2×2 grid `tab22`. -/
theorem c6_row_commit_row_markup_witness :
    ∃ tr rowPos, tab22.rowPosOf 1 = some rowPos ∧
      ([(1, Markup.cell ⟨1, 1, none, some [30]⟩), (4, Markup.cell ⟨1, 1, none, some [30]⟩),
        (0, Markup.row ⟨some [30]⟩)] : List Update) =
          tr ++ [(rowPos, Markup.row ⟨some [30]⟩)] ∧
      ∀ u ∈ tr, ∃ a, u.2 = Markup.cell a :=
  (c6_row_commit_row_markup tab22 1 30 0).1 _ (by decide)

/-! ## Claim C10: the span-length invariant of every written hint array -/

/-- C10: on a well-formed boundary, every cell markup a commit writes keeps
colspan, rowspan and the other size hint unchanged and stores a hint array
of exactly the cell's span length: a copy of the stored array (or a fresh
zero-filled array of the span's length when none is stored) with only the
touched index changed to the committed size. -/
theorem c10_span_length_invariant (t : Table) (cellPos : Nat) (w hv : ℚ) :
    (colCommitOk t cellPos = true →
      ∀ us, columnUpdates t cellPos w = some us →
        ∀ u ∈ us, ∃ attrs l idx, t.nodeAt u.1 = some attrs ∧
          u.2 = Markup.cell ⟨attrs.colspan, attrs.rowspan, some l, attrs.rowheight⟩ ∧
          l.length = attrs.colspan ∧ idx < attrs.colspan ∧ l[idx]? = some w ∧
          ∀ j, j ≠ idx → l[j]? = (attrs.colwidth.getD (zeroes attrs.colspan))[j]?) ∧
    (rowCommitOk t cellPos = true →
      ∀ us, rowUpdates t cellPos hv = some us →
        ∀ u ∈ us, (∃ a, u.2 = Markup.row a) ∨
          ∃ attrs l idx, t.nodeAt u.1 = some attrs ∧
            u.2 = Markup.cell ⟨attrs.colspan, attrs.rowspan, attrs.colwidth, some l⟩ ∧
            l.length = attrs.rowspan ∧ idx < attrs.rowspan ∧ l[idx]? = some hv ∧
            ∀ j, j ≠ idx → l[j]? = (attrs.rowheight.getD (zeroes attrs.rowspan))[j]?) := by
  constructor
  · intro hok us h u hu
    unfold columnUpdates at h
    simp only [] at h
    cases hn : t.nodeAt cellPos with
    | none => rw [hn] at h; exact absurd h (by simp)
    | some cell =>
      rw [hn] at h
      simp only [] at h
      obtain ⟨⟨s, hs, hPs⟩, -⟩ :=
        foldlM_option_facts _
          (colEmittedAt t (TableMap.get t) (targetCol (TableMap.get t) cellPos cell) w) _
          (fun a x r hx hr => colStep_extend t _ _ w a x r hx hr) [] us h
      rw [List.nil_append] at hs
      obtain ⟨row, hrow, hupos, attrs, hna, hmk⟩ := hPs u (hs ▸ hu)
      unfold colCommitOk at hok
      rw [hn] at hok
      simp only [] at hok
      have hfact := List.all_eq_true.1 hok row (List.mem_range.2 hrow)
      simp only [] at hfact
      rw [← hupos, hna] at hfact
      simp only [] at hfact
      obtain ⟨h1, h2⟩ := (Bool.and_eq_true _ _).mp hfact
      have hidx : colTouchIndex (TableMap.get t)
          (targetCol (TableMap.get t) cellPos cell) u.1 attrs < attrs.colspan :=
        of_decide_eq_true h1
      have hbase : (attrs.colwidth.getD (zeroes attrs.colspan)).length = attrs.colspan := by
        cases hcw : attrs.colwidth with
        | some cw =>
          rw [hcw] at h2
          have := of_decide_eq_true h2
          simpa using this
        | none => simp [zeroes]
      have hlt : colTouchIndex (TableMap.get t) (targetCol (TableMap.get t) cellPos cell)
          u.1 attrs < (attrs.colwidth.getD (zeroes attrs.colspan)).length := by
        rw [hbase]
        exact hidx
      refine ⟨attrs,
        jsSet (attrs.colwidth.getD (zeroes attrs.colspan))
          (colTouchIndex (TableMap.get t) (targetCol (TableMap.get t) cellPos cell) u.1 attrs) w,
        colTouchIndex (TableMap.get t) (targetCol (TableMap.get t) cellPos cell) u.1 attrs,
        hna, hmk, ?_, hidx, jsSet_getElem_self _ _ _, ?_⟩
      · rw [jsSet_length_of_lt _ _ _ hlt, hbase]
      · intro j hj
        exact jsSet_getElem_other _ _ _ j hj hlt
  · intro hok us h u hu
    unfold rowUpdates at h
    simp only [] at h
    cases hn : t.nodeAt cellPos with
    | none => rw [hn] at h; exact absurd h (by simp)
    | some cell =>
      rw [hn] at h
      simp only [] at h
      cases hf : (List.range (TableMap.get t).width).foldlM
          (rowStep t (TableMap.get t) (targetRow (TableMap.get t) cellPos cell) hv) [] with
      | none => rw [hf] at h; exact absurd h (by simp)
      | some tr =>
        rw [hf] at h
        simp only [] at h
        cases hrp : t.rowPosOf cellPos with
        | none => rw [hrp] at h; exact absurd h (by simp)
        | some rowPos =>
          rw [hrp] at h
          simp only [] at h
          have hus := (Option.some.inj h).symm
          rcases List.mem_append.1 (hus ▸ hu) with hmem | hmem
          · obtain ⟨⟨s, hp, hPs⟩, -⟩ :=
              foldlM_option_facts _
                (rowEmittedAt t (TableMap.get t) (targetRow (TableMap.get t) cellPos cell) hv) _
                (fun a x r hx hr => rowStep_extend t _ _ hv a x r hx hr) [] tr hf
            rw [List.nil_append] at hp
            obtain ⟨c2, hc2, hupos, attrs, hna, hmk⟩ := hPs u (hp ▸ hmem)
            unfold rowCommitOk at hok
            rw [hn] at hok
            simp only [] at hok
            have hfact := List.all_eq_true.1 hok c2 (List.mem_range.2 hc2)
            simp only [] at hfact
            rw [← hupos, hna] at hfact
            simp only [] at hfact
            obtain ⟨h1, h2⟩ := (Bool.and_eq_true _ _).mp hfact
            have hidx : rowTouchIndex (TableMap.get t)
                (targetRow (TableMap.get t) cellPos cell) u.1 attrs < attrs.rowspan :=
              of_decide_eq_true h1
            have hbase : (attrs.rowheight.getD (zeroes attrs.rowspan)).length = attrs.rowspan := by
              cases hrh : attrs.rowheight with
              | some rh =>
                rw [hrh] at h2
                have := of_decide_eq_true h2
                simpa using this
              | none => simp [zeroes]
            have hlt : rowTouchIndex (TableMap.get t) (targetRow (TableMap.get t) cellPos cell)
                u.1 attrs < (attrs.rowheight.getD (zeroes attrs.rowspan)).length := by
              rw [hbase]
              exact hidx
            refine Or.inr ⟨attrs,
              jsSet (attrs.rowheight.getD (zeroes attrs.rowspan))
                (rowTouchIndex (TableMap.get t) (targetRow (TableMap.get t) cellPos cell)
                  u.1 attrs) hv,
              rowTouchIndex (TableMap.get t) (targetRow (TableMap.get t) cellPos cell) u.1 attrs,
              hna, hmk, ?_, hidx, jsSet_getElem_self _ _ _, ?_⟩
            · rw [jsSet_length_of_lt _ _ _ hlt, hbase]
            · intro j hj
              exact jsSet_getElem_other _ _ _ j hj hlt
          · left
            rw [List.mem_singleton.1 hmem]
            exact ⟨⟨some [hv]⟩, rfl⟩

/-- Witness for C10: the first update of the column commit of width 50 on
`tab22` stores the one-slot array `[50]` on the colspan-1 cell at offset 1. -/
theorem c10_span_length_invariant_witness :
    ∃ attrs l idx, tab22.nodeAt 1 = some attrs ∧
      (Markup.cell ⟨1, 1, some [50], none⟩ : Markup) =
        Markup.cell ⟨attrs.colspan, attrs.rowspan, some l, attrs.rowheight⟩ ∧
      l.length = attrs.colspan ∧ idx < attrs.colspan ∧ l[idx]? = some 50 ∧
      ∀ j, j ≠ idx → l[j]? = (attrs.colwidth.getD (zeroes attrs.colspan))[j]? :=
  (c10_span_length_invariant tab22 1 50 0).1 (by decide)
    [(1, Markup.cell ⟨1, 1, some [50], none⟩), (9, Markup.cell ⟨1, 1, some [50], none⟩)]
    (by decide) (1, Markup.cell ⟨1, 1, some [50], none⟩) (by simp)

/-! ## Skip and inversion lemmas for the commit loops -/

theorem colStep_skip (t2 : Table) (tm : TableMap) (col : Nat) (w : ℚ) (x : Nat)
    (h : (x ≠ 0 ∧ tm.map.getD (x * tm.width + col) 0 =
            tm.map.getD (x * tm.width + col - tm.width) 0) ∨
      ∃ attrs cw, t2.nodeAt (tm.map.getD (x * tm.width + col) 0) = some attrs ∧
        attrs.colwidth = some cw ∧
        cw[colTouchIndex tm col (tm.map.getD (x * tm.width + col) 0) attrs]? = some w) :
    ∀ acc, colStep t2 tm col w acc x = some acc := by
  intro acc
  unfold colStep
  simp only []
  rcases h with hskip | ⟨attrs, cw, hna, hcw, hget⟩
  · rw [if_pos hskip]
  · by_cases hskip : x ≠ 0 ∧ tm.map.getD (x * tm.width + col) 0 =
        tm.map.getD (x * tm.width + col - tm.width) 0
    · rw [if_pos hskip]
    · rw [if_neg hskip, hna]
      simp only []
      rw [hcw]
      simp only []
      rw [if_pos hget]

theorem rowStep_skip (t2 : Table) (tm : TableMap) (row : Nat) (hv : ℚ) (x : Nat)
    (h : (row ≠ 0 ∧ tm.map.getD (x + row * tm.width) 0 =
            tm.map.getD (x + row * tm.width - 1) 0) ∨
      ∃ attrs rh, t2.nodeAt (tm.map.getD (x + row * tm.width) 0) = some attrs ∧
        attrs.rowheight = some rh ∧
        rh[rowTouchIndex tm row (tm.map.getD (x + row * tm.width) 0) attrs]? = some hv) :
    ∀ acc, rowStep t2 tm row hv acc x = some acc := by
  intro acc
  unfold rowStep
  simp only []
  rcases h with hskip | ⟨attrs, rh, hna, hrh, hget⟩
  · rw [if_pos hskip]
  · by_cases hskip : row ≠ 0 ∧ tm.map.getD (x + row * tm.width) 0 =
        tm.map.getD (x + row * tm.width - 1) 0
    · rw [if_pos hskip]
    · rw [if_neg hskip, hna]
      simp only []
      rw [hrh]
      simp only []
      rw [if_pos hget]

theorem colStep_success_inv (t : Table) (tm : TableMap) (col : Nat) (w : ℚ)
    (b : List Update) (x : Nat) (r : List Update)
    (h : colStep t tm col w b x = some r) :
    (x ≠ 0 ∧ tm.map.getD (x * tm.width + col) 0 =
        tm.map.getD (x * tm.width + col - tm.width) 0) ∨
    ∃ attrs, t.nodeAt (tm.map.getD (x * tm.width + col) 0) = some attrs ∧
      ((∃ cw, attrs.colwidth = some cw ∧
          cw[colTouchIndex tm col (tm.map.getD (x * tm.width + col) 0) attrs]? = some w) ∨
        r = b ++ [(tm.map.getD (x * tm.width + col) 0,
          Markup.cell (colNewAttrs tm col w (tm.map.getD (x * tm.width + col) 0) attrs))]) := by
  unfold colStep at h
  simp only [] at h
  split at h
  · next hc => exact Or.inl hc
  · next hc =>
    cases hn : t.nodeAt (tm.map.getD (x * tm.width + col) 0) with
    | none => rw [hn] at h; exact absurd h (by simp)
    | some attrs =>
      rw [hn] at h
      simp only [] at h
      cases hcw : attrs.colwidth with
      | some cw =>
        rw [hcw] at h
        simp only [] at h
        by_cases hif : cw[colTouchIndex tm col (tm.map.getD (x * tm.width + col) 0) attrs]? =
            some w
        · exact Or.inr ⟨attrs, rfl, Or.inl ⟨cw, hcw, hif⟩⟩
        · rw [if_neg hif] at h
          exact Or.inr ⟨attrs, rfl, Or.inr (Option.some.inj h).symm⟩
      | none =>
        rw [hcw] at h
        simp only [] at h
        exact Or.inr ⟨attrs, rfl, Or.inr (Option.some.inj h).symm⟩

theorem rowStep_success_inv (t : Table) (tm : TableMap) (row : Nat) (hv : ℚ)
    (b : List Update) (x : Nat) (r : List Update)
    (h : rowStep t tm row hv b x = some r) :
    (row ≠ 0 ∧ tm.map.getD (x + row * tm.width) 0 =
        tm.map.getD (x + row * tm.width - 1) 0) ∨
    ∃ attrs, t.nodeAt (tm.map.getD (x + row * tm.width) 0) = some attrs ∧
      ((∃ rh, attrs.rowheight = some rh ∧
          rh[rowTouchIndex tm row (tm.map.getD (x + row * tm.width) 0) attrs]? = some hv) ∨
        r = b ++ [(tm.map.getD (x + row * tm.width) 0,
          Markup.cell (rowNewAttrs tm row hv (tm.map.getD (x + row * tm.width) 0) attrs))]) := by
  unfold rowStep at h
  simp only [] at h
  split at h
  · next hc => exact Or.inl hc
  · next hc =>
    cases hn : t.nodeAt (tm.map.getD (x + row * tm.width) 0) with
    | none => rw [hn] at h; exact absurd h (by simp)
    | some attrs =>
      rw [hn] at h
      simp only [] at h
      cases hrh : attrs.rowheight with
      | some rh =>
        rw [hrh] at h
        simp only [] at h
        by_cases hif : rh[rowTouchIndex tm row (tm.map.getD (x + row * tm.width) 0) attrs]? =
            some hv
        · exact Or.inr ⟨attrs, rfl, Or.inl ⟨rh, hrh, hif⟩⟩
        · rw [if_neg hif] at h
          exact Or.inr ⟨attrs, rfl, Or.inr (Option.some.inj h).symm⟩
      | none =>
        rw [hrh] at h
        simp only [] at h
        exact Or.inr ⟨attrs, rfl, Or.inr (Option.some.inj h).symm⟩

/-! ## Claim C2 (amended): second commits -/

/-- C2 amended: a visited cell whose stored hint at the touched index
already equals the committed size emits no update (built into the loop), so
re-committing a column size produces an empty step list and the transaction
is dropped; a row re-commit emits no cell updates either, but the
unconditional row-node write keeps the transaction nonempty — its single
step rewrites attributes equal to those already stored, so applying it
changes nothing (zero document changes in value, though the transaction is
dispatched). -/
theorem c2_idempotent_commit_amended (t : Table) (cellPos : Nat) (w hv : ℚ) :
    (∀ us, columnUpdates t cellPos w = some us →
      columnUpdates (applyTx t us) cellPos w = some [] ∧
      dispatchedColumnTx (applyTx t us) cellPos w = none) ∧
    (∀ us, rowUpdates t cellPos hv = some us →
      ∃ rowPos, t.rowPosOf cellPos = some rowPos ∧
        rowUpdates (applyTx t us) cellPos hv = some [(rowPos, Markup.row ⟨some [hv]⟩)] ∧
        applyTx (applyTx t us) [(rowPos, Markup.row ⟨some [hv]⟩)] = applyTx t us) := by
  constructor
  · intro us h
    unfold columnUpdates at h
    simp only [] at h
    cases hn : t.nodeAt cellPos with
    | none => rw [hn] at h; exact absurd h (by simp)
    | some cell =>
      rw [hn] at h
      simp only [] at h
      obtain ⟨⟨s, hs0, hPs⟩, hsteps⟩ :=
        foldlM_option_facts _
          (colEmittedAt t (TableMap.get t) (targetCol (TableMap.get t) cellPos cell) w) _
          (fun a x r hx hr => colStep_extend t _ _ w a x r hx hr) [] us h
      rw [List.nil_append] at hs0
      have hemit : ∀ u ∈ us, colEmittedAt t (TableMap.get t)
          (targetCol (TableMap.get t) cellPos cell) w u := fun u hu => hPs u (hs0 ▸ hu)
      have hok : ∀ u ∈ us, updOk t u := fun u hu =>
        colEmitted_updOk t _ _ w u (hemit u hu)
      have htm : TableMap.get (applyTx t us) = TableMap.get t := applyTx_tableMap t us hok
      have hfun : ∀ u ∈ us, ∃ attrs, t.nodeAt u.1 = some attrs ∧
          u.2 = Markup.cell (colNewAttrs (TableMap.get t)
            (targetCol (TableMap.get t) cellPos cell) w u.1 attrs) := by
        intro u hu
        obtain ⟨-, -, -, attrs, hna, hmk⟩ := hemit u hu
        exact ⟨attrs, hna, hmk⟩
      have hnode := nodeAt_applyTx_fun t
        (fun pos attrs => colNewAttrs (TableMap.get t)
          (targetCol (TableMap.get t) cellPos cell) w pos attrs) us hfun
      have hn2 : (applyTx t us).nodeAt cellPos =
          some (if us.any (fun u => u.1 == cellPos) then
            colNewAttrs (TableMap.get t) (targetCol (TableMap.get t) cellPos cell) w
              cellPos cell else cell) := by
        rw [hnode cellPos, hn]
        by_cases hm : us.any (fun u => u.1 == cellPos) <;> simp [hm]
      have hcol : targetCol (TableMap.get t) cellPos
          (if us.any (fun u => u.1 == cellPos) then
            colNewAttrs (TableMap.get t) (targetCol (TableMap.get t) cellPos cell) w
              cellPos cell else cell) = targetCol (TableMap.get t) cellPos cell := by
        unfold targetCol
        by_cases hm : us.any (fun u => u.1 == cellPos) <;> simp [hm, colNewAttrs]
      have hsecond : columnUpdates (applyTx t us) cellPos w = some [] := by
        unfold columnUpdates
        simp only []
        rw [htm, hn2]
        simp only []
        rw [hcol]
        apply foldlM_option_skip
        intro x hx acc
        obtain ⟨b, r, hbr, s2, husr⟩ := hsteps x hx
        rcases colStep_success_inv t _ _ w b x r hbr with hskip | ⟨attrs, hna2, hrest⟩
        · exact colStep_skip _ _ _ w x (Or.inl hskip) acc
        · have hmemcase : ∀ hmem : us.any (fun u => u.1 ==
              (TableMap.get t).map.getD (x * (TableMap.get t).width +
                targetCol (TableMap.get t) cellPos cell) 0) = true,
              colStep (applyTx t us) (TableMap.get t)
                (targetCol (TableMap.get t) cellPos cell) w acc x = some acc := by
            intro hmem
            refine colStep_skip (applyTx t us) _ _ w x (Or.inr
              ⟨colNewAttrs (TableMap.get t) (targetCol (TableMap.get t) cellPos cell) w
                ((TableMap.get t).map.getD (x * (TableMap.get t).width +
                  targetCol (TableMap.get t) cellPos cell) 0) attrs,
               jsSet (attrs.colwidth.getD (zeroes attrs.colspan))
                (colTouchIndex (TableMap.get t) (targetCol (TableMap.get t) cellPos cell)
                  ((TableMap.get t).map.getD (x * (TableMap.get t).width +
                    targetCol (TableMap.get t) cellPos cell) 0) attrs) w,
               ?_, rfl, ?_⟩) acc
            · rw [hnode _, if_pos hmem, hna2]
              rfl
            · exact jsSet_getElem_self _ _ _
          rcases hrest with ⟨cw, hcw, hget⟩ | hremit
          · by_cases hmem : us.any (fun u => u.1 ==
                (TableMap.get t).map.getD (x * (TableMap.get t).width +
                  targetCol (TableMap.get t) cellPos cell) 0) = true
            · exact hmemcase hmem
            · refine colStep_skip (applyTx t us) _ _ w x
                (Or.inr ⟨attrs, cw, ?_, hcw, hget⟩) acc
              rw [hnode _, if_neg hmem]
              exact hna2
          · refine hmemcase (List.any_eq_true.2
              ⟨((TableMap.get t).map.getD (x * (TableMap.get t).width +
                  targetCol (TableMap.get t) cellPos cell) 0,
                Markup.cell (colNewAttrs (TableMap.get t)
                  (targetCol (TableMap.get t) cellPos cell) w
                  ((TableMap.get t).map.getD (x * (TableMap.get t).width +
                    targetCol (TableMap.get t) cellPos cell) 0) attrs)), ?_, by simp⟩)
            rw [husr, hremit]
            exact List.mem_append_left _ (List.mem_append_right _ (by simp))
      refine ⟨hsecond, ?_⟩
      unfold dispatchedColumnTx
      rw [hsecond]
      rfl
  · intro us h
    unfold rowUpdates at h
    simp only [] at h
    cases hn : t.nodeAt cellPos with
    | none => rw [hn] at h; exact absurd h (by simp)
    | some cell =>
      rw [hn] at h
      simp only [] at h
      cases hf : (List.range (TableMap.get t).width).foldlM
          (rowStep t (TableMap.get t) (targetRow (TableMap.get t) cellPos cell) hv) [] with
      | none => rw [hf] at h; exact absurd h (by simp)
      | some tr =>
        rw [hf] at h
        simp only [] at h
        cases hrp : t.rowPosOf cellPos with
        | none => rw [hrp] at h; exact absurd h (by simp)
        | some rowPos =>
          rw [hrp] at h
          simp only [] at h
          have hus : us = tr ++ [(rowPos, Markup.row ⟨some [hv]⟩)] := (Option.some.inj h).symm
          obtain ⟨⟨s, hs0, hPs⟩, hsteps⟩ :=
            foldlM_option_facts _
              (rowEmittedAt t (TableMap.get t) (targetRow (TableMap.get t) cellPos cell) hv) _
              (fun a x r hx hr => rowStep_extend t _ _ hv a x r hx hr) [] tr hf
          rw [List.nil_append] at hs0
          have hemit : ∀ u ∈ tr, rowEmittedAt t (TableMap.get t)
              (targetRow (TableMap.get t) cellPos cell) hv u := fun u hu => hPs u (hs0 ▸ hu)
          have hok : ∀ u ∈ us, updOk t u := by
            intro u hu
            rw [hus] at hu
            rcases List.mem_append.1 hu with hu | hu
            · exact rowEmitted_updOk t _ _ hv u (hemit u hu)
            · rw [List.mem_singleton.1 hu]
              exact rowMarkup_updOk t rowPos ⟨some [hv]⟩
          have htm : TableMap.get (applyTx t us) = TableMap.get t := applyTx_tableMap t us hok
          have hfun : ∀ u ∈ tr, ∃ attrs, t.nodeAt u.1 = some attrs ∧
              u.2 = Markup.cell (rowNewAttrs (TableMap.get t)
                (targetRow (TableMap.get t) cellPos cell) hv u.1 attrs) := by
            intro u hu
            obtain ⟨-, -, -, attrs, hna, hmk⟩ := hemit u hu
            exact ⟨attrs, hna, hmk⟩
          have hnodetr := nodeAt_applyTx_fun t
            (fun pos attrs => rowNewAttrs (TableMap.get t)
              (targetRow (TableMap.get t) cellPos cell) hv pos attrs) tr hfun
          have hnode : ∀ q, (applyTx t us).nodeAt q = (applyTx t tr).nodeAt q := by
            intro q
            rw [hus]
            exact nodeAt_applyTx_snoc_row t tr rowPos ⟨some [hv]⟩ q
          have hn2 : (applyTx t us).nodeAt cellPos =
              some (if tr.any (fun u => u.1 == cellPos) then
                rowNewAttrs (TableMap.get t) (targetRow (TableMap.get t) cellPos cell) hv
                  cellPos cell else cell) := by
            rw [hnode cellPos, hnodetr cellPos, hn]
            by_cases hm : tr.any (fun u => u.1 == cellPos) <;> simp [hm]
          have hrow : targetRow (TableMap.get t) cellPos
              (if tr.any (fun u => u.1 == cellPos) then
                rowNewAttrs (TableMap.get t) (targetRow (TableMap.get t) cellPos cell) hv
                  cellPos cell else cell) = targetRow (TableMap.get t) cellPos cell := by
            unfold targetRow
            by_cases hm : tr.any (fun u => u.1 == cellPos) <;> simp [hm, rowNewAttrs]
          have hrp2 : (applyTx t us).rowPosOf cellPos = some rowPos := by
            rw [applyTx_rowPosOf_any, hrp]
          refine ⟨rowPos, rfl, ?_, ?_⟩
          · unfold rowUpdates
            simp only []
            rw [htm, hn2]
            simp only []
            rw [hrow]
            have hfold : (List.range (TableMap.get t).width).foldlM
                (rowStep (applyTx t us) (TableMap.get t)
                  (targetRow (TableMap.get t) cellPos cell) hv) [] = some [] := by
              apply foldlM_option_skip
              intro x hx acc
              obtain ⟨b, r, hbr, s2, husr⟩ := hsteps x hx
              rcases rowStep_success_inv t _ _ hv b x r hbr with hskip | ⟨attrs, hna2, hrest⟩
              · exact rowStep_skip _ _ _ hv x (Or.inl hskip) acc
              · have hmemcase : ∀ hmem : tr.any (fun u => u.1 ==
                    (TableMap.get t).map.getD (x + targetRow (TableMap.get t) cellPos cell *
                      (TableMap.get t).width) 0) = true,
                    rowStep (applyTx t us) (TableMap.get t)
                      (targetRow (TableMap.get t) cellPos cell) hv acc x = some acc := by
                  intro hmem
                  refine rowStep_skip (applyTx t us) _ _ hv x (Or.inr
                    ⟨rowNewAttrs (TableMap.get t) (targetRow (TableMap.get t) cellPos cell) hv
                      ((TableMap.get t).map.getD (x + targetRow (TableMap.get t) cellPos cell *
                        (TableMap.get t).width) 0) attrs,
                     jsSet (attrs.rowheight.getD (zeroes attrs.rowspan))
                      (rowTouchIndex (TableMap.get t)
                        (targetRow (TableMap.get t) cellPos cell)
                        ((TableMap.get t).map.getD (x + targetRow (TableMap.get t) cellPos cell *
                          (TableMap.get t).width) 0) attrs) hv,
                     ?_, rfl, ?_⟩) acc
                  · rw [hnode _, hnodetr _, if_pos hmem, hna2]
                    rfl
                  · exact jsSet_getElem_self _ _ _
                rcases hrest with ⟨rh, hrh, hget⟩ | hremit
                · by_cases hmem : tr.any (fun u => u.1 ==
                      (TableMap.get t).map.getD (x + targetRow (TableMap.get t) cellPos cell *
                        (TableMap.get t).width) 0) = true
                  · exact hmemcase hmem
                  · refine rowStep_skip (applyTx t us) _ _ hv x
                      (Or.inr ⟨attrs, rh, ?_, hrh, hget⟩) acc
                    rw [hnode _, hnodetr _, if_neg hmem]
                    exact hna2
                · refine hmemcase (List.any_eq_true.2
                    ⟨((TableMap.get t).map.getD (x + targetRow (TableMap.get t) cellPos cell *
                        (TableMap.get t).width) 0,
                      Markup.cell (rowNewAttrs (TableMap.get t)
                        (targetRow (TableMap.get t) cellPos cell) hv
                        ((TableMap.get t).map.getD (x + targetRow (TableMap.get t) cellPos cell *
                          (TableMap.get t).width) 0) attrs)), ?_, by simp⟩)
                  rw [husr, hremit]
                  exact List.mem_append_left _ (List.mem_append_right _ (by simp))
            rw [hfold]
            simp only []
            rw [hrp2]
            simp only [List.nil_append]
          · have happ : applyTx t us = setRowMarkup (applyTx t tr) rowPos ⟨some [hv]⟩ := by
              rw [hus, applyTx_append_one]
              rfl
            rw [show applyTx (applyTx t us) [(rowPos, Markup.row ⟨some [hv]⟩)] =
              setRowMarkup (applyTx t us) rowPos ⟨some [hv]⟩ from rfl]
            apply setRowMarkup_noop
            intro e he hps
            rw [happ] at he
            exact rowNodes_attrs_setRowMarkup (applyTx t tr) rowPos ⟨some [hv]⟩ e he hps

/-- Witness for the amended C2 on the 2×2 grid `tab22`: the second column
commit of width 50 is empty and dropped; the second row commit of height 30
consists solely of the row-node write and applying it changes nothing. -/
theorem c2_idempotent_commit_amended_witness :
    (columnUpdates (applyTx tab22
        [(1, Markup.cell ⟨1, 1, some [50], none⟩),
         (9, Markup.cell ⟨1, 1, some [50], none⟩)]) 1 50 = some [] ∧
      dispatchedColumnTx (applyTx tab22
        [(1, Markup.cell ⟨1, 1, some [50], none⟩),
         (9, Markup.cell ⟨1, 1, some [50], none⟩)]) 1 50 = none) ∧
    (∃ rowPos, tab22.rowPosOf 1 = some rowPos ∧
      rowUpdates (applyTx tab22
        [(1, Markup.cell ⟨1, 1, none, some [30]⟩),
         (4, Markup.cell ⟨1, 1, none, some [30]⟩),
         (0, Markup.row ⟨some [30]⟩)]) 1 30 = some [(rowPos, Markup.row ⟨some [30]⟩)] ∧
      applyTx (applyTx tab22
        [(1, Markup.cell ⟨1, 1, none, some [30]⟩),
         (4, Markup.cell ⟨1, 1, none, some [30]⟩),
         (0, Markup.row ⟨some [30]⟩)]) [(rowPos, Markup.row ⟨some [30]⟩)] =
        applyTx tab22
          [(1, Markup.cell ⟨1, 1, none, some [30]⟩),
           (4, Markup.cell ⟨1, 1, none, some [30]⟩),
           (0, Markup.row ⟨some [30]⟩)]) :=
  ⟨(c2_idempotent_commit_amended tab22 1 50 30).1 _ (by decide),
   (c2_idempotent_commit_amended tab22 1 50 30).2 _ (by decide)⟩

end PmTables
